import Mathlib

/-!
Verification of the AMW block parser (`amw_parse.c`, `amw_json.c`, `amw_status.c`)
against its natural-language specification.

The development shallowly embeds the parser: lines are `List Char`, the host
string/line-reader primitives of the UW value library (which is outside this
repository) are modelled from the spec contracts, and every C function of the
parser core is translated into an executable Lean function of the same name
(leading underscores dropped).  Loops that consume input lines take an explicit
fuel argument; loops that scan within one line take a structural countdown that
is exactly the number of remaining positions, so that all definitions reduce in
the kernel.
-/

namespace AmwSpec

/-- Backslash character, written via its code point. -/
def bslash : Char := Char.ofNat 92

/-- Double-quote character. -/
def dquote : Char := Char.ofNat 34

/-- Single-quote character (also the numeric separator). -/
def squote : Char := Char.ofNat 39

/-- NUL character, the model of an out-of-range host string read. -/
def nulCh : Char := Char.ofNat 0

/-- Line-feed character. -/
def lfCh : Char := Char.ofNat 10

/-- Horizontal tab character. -/
def tabCh : Char := Char.ofNat 9

/-- The AMW_COMMENT character. -/
def commentCh : Char := '#'

/-- Code point of a character, used to mirror the C `char32_t` arithmetic. -/
def cv (c : Char) : Nat := c.toNat

/-- Modelled from the spec: host `uw_char_at`; reading beyond the end of a
string yields 0, modelled as the NUL character. -/
def uw_char_at (l : List Char) (p : Nat) : Char := l.getD p nulCh

/-- Modelled from the spec: host `uw_strlen`. -/
def uw_strlen (l : List Char) : Nat := l.length

/-- Modelled from the spec: host whitespace test used for line trimming and
value terminators; the inputs of interest contain only spaces and tabs. -/
def uw_isspace (c : Char) : Bool := c = ' ' || c = tabCh

/-- Modelled from the spec: host `uw_string_rtrim`, stripping trailing
whitespace. -/
def uw_string_rtrim (l : List Char) : List Char :=
  (l.reverse.dropWhile (fun c => uw_isspace c)).reverse

/-- Modelled from the spec: host left trim. -/
def uw_string_ltrim (l : List Char) : List Char :=
  l.dropWhile (fun c => uw_isspace c)

/-- Modelled from the spec: host `uw_string_trim`, trimming both ends. -/
def uw_string_trim (l : List Char) : List Char :=
  uw_string_ltrim (uw_string_rtrim l)

/-- Modelled from the spec: host `uw_substr` with an exclusive end position,
clamped to the string length. -/
def uw_substr (l : List Char) (a b : Nat) : List Char := (l.drop a).take (b - a)

/-- Modelled from the spec: host `uw_substr` called with UINT_MAX as the end
position, i.e. the suffix from `a`. -/
def uw_substr_end (l : List Char) (a : Nat) : List Char := l.drop a

/-- Modelled from the spec: host `uw_substring_eq_cstr`, comparing the clamped
substring with a C string. -/
def uw_substring_eq_cstr (l : List Char) (a b : Nat) (s : List Char) : Bool :=
  uw_substr l a b == s

/-- Countdown loop behind `uw_string_skip_spaces`; the countdown is exactly the
number of remaining positions, so the function behaves as the unbounded host
loop. -/
def skip_spaces_go : Nat → List Char → Nat → Nat
  | 0, _, p => p
  | n + 1, l, p =>
      if p < l.length ∧ uw_char_at l p = ' ' then skip_spaces_go n l (p + 1) else p

/-- Modelled from the spec: host `uw_string_skip_spaces`, returning the first
position at or after `p` that does not hold a space. -/
def uw_string_skip_spaces (l : List Char) (p : Nat) : Nat :=
  skip_spaces_go (l.length - p) l p

/-- Countdown loop behind `uw_strchr`. -/
def strchr_go : Nat → List Char → Char → Nat → Option Nat
  | 0, _, _, _ => none
  | n + 1, l, c, p =>
      if p < l.length then
        if uw_char_at l p = c then some p else strchr_go n l c (p + 1)
      else none

/-- Modelled from the spec: host `uw_strchr`, returning the position of the
first occurrence of `c` at or after `p`. -/
def uw_strchr (l : List Char) (c : Char) (p : Nat) : Option Nat :=
  strchr_go (l.length + 1 - p) l c p

/-- Leading-space indent of a line. -/
def lineIndent (l : List Char) : Nat := uw_string_skip_spaces l 0

/-- Modelled from the spec: host `uw_list_dedent` computes the minimum
leading-space indent across non-empty lines and strips that many characters
from every line. -/
def uw_list_dedent (ls : List (List Char)) : List (List Char) :=
  match (ls.filter (fun l => decide (l.length ≠ 0))).map lineIndent with
  | [] => ls
  | x :: xs => ls.map (fun l => l.drop (xs.foldl Nat.min x))

/-- Modelled from the spec: host `uw_list_join` over strings. -/
def uw_list_join (sep : Char) (ls : List (List Char)) : List Char :=
  match ls with
  | [] => []
  | x :: xs => x ++ xs.foldl (fun acc y => acc ++ sep :: y) []

/-- Values produced by the parser: the tagged-union variants of the host value
library that the parser core can build.  `status` stands for a plain success
status value (`UwOK()`), which the host treats as a first-class value;
`float` keeps the recovered substring and the sign symbolically because the
conversion itself (`strtod`) is host code outside the repository. -/
inductive AmwValue where
  | null : AmwValue
  | bool (b : Bool) : AmwValue
  | sint (i : Int) : AmwValue
  | uint (u : Nat) : AmwValue
  | float (raw : List Char) (negated : Bool) : AmwValue
  | str (s : List Char) : AmwValue
  | list (items : List AmwValue) : AmwValue
  | map (entries : List (AmwValue × AmwValue)) : AmwValue
  | status : AmwValue

/-- Results of parser operations: either a (success) value or one of the error
statuses the core produces.  `noFuel` is an artifact of the fueled embedding
and never occurs with adequate fuel. -/
inductive UwRes where
  | val (v : AmwValue) : UwRes
  | parseError (line pos : Nat) (desc : String) : UwRes
  | endOfBlock : UwRes
  | eofError : UwRes
  | notImplemented : UwRes
  | noFuel : UwRes

/-- Error test mirroring `uw_error`: everything except a value is an error. -/
def UwRes.isError : UwRes → Bool
  | .val _ => false
  | _ => true

/-- Test mirroring `_amw_end_of_block`. -/
def UwRes.isEndOfBlock : UwRes → Bool
  | .endOfBlock => true
  | _ => false

/-- Test mirroring `uw_eof` on a status. -/
def UwRes.isEof : UwRes → Bool
  | .eofError => true
  | _ => false

mutual

/-- Structural equality of host values, used by `uw_map_update`. -/

def amwEq : AmwValue → AmwValue → Bool
  | .null, .null => true
  | .bool a, .bool b => a == b
  | .sint a, .sint b => a == b
  | .uint a, .uint b => a == b
  | .float r n, .float r2 n2 => r == r2 && n == n2
  | .str a, .str b => a == b
  | .list a, .list b => amwEqList a b
  | .map a, .map b => amwEqMap a b
  | .status, .status => true
  | _, _ => false

def amwEqList : List AmwValue → List AmwValue → Bool
  | [], [] => true
  | a :: as, b :: bs => amwEq a b && amwEqList as bs
  | _, _ => false

def amwEqMap : List (AmwValue × AmwValue) → List (AmwValue × AmwValue) → Bool
  | [], [] => true
  | a :: as, b :: bs => amwEq a.1 b.1 && amwEq a.2 b.2 && amwEqMap as bs
  | _, _ => false

end

/-- Modelled from the spec: host `uw_map_update`; maps preserve insertion
order, and updating an existing key overwrites its value in place. -/
def uw_map_update (entries : List (AmwValue × AmwValue)) (k v : AmwValue) :
    List (AmwValue × AmwValue) :=
  if entries.any (fun e => amwEq e.1 k) then
    entries.map (fun e => if amwEq e.1 k then (e.1, v) else e)
  else entries ++ [(k, v)]

/-- Modelled from the spec: reading the `unsigned_value` union member of a host
value.  For integer values it is the stored integer; for any other variant the
C code reads an inactive union member whose content is unspecified, modelled
here as 0. -/
def uwUnsignedField : AmwValue → Nat
  | .uint u => u
  | .sint i => (i.emod (2 ^ 64)).toNat
  | _ => 0

/-- Modelled from the spec: the host line reader.  `pos` counts consumed
lines; a one-deep push-back is realized by decrementing `pos`. -/
structure LineReader where
  lines : List (List Char)
  pos : Nat

/-- Parser state, mirroring `AmwParser` of `amw.h`.  The custom-parser registry
is not part of the state because the claims only exercise the built-in table
installed by parser creation. -/
structure AmwParser where
  markup : LineReader
  current_line : List Char
  current_indent : Nat
  line_number : Nat
  block_indent : Nat
  blocklevel : Nat
  max_blocklevel : Nat
  skip_comments : Bool
  eof : Bool

/-- The block-parser functions that can sit in the registry, defunctionalized:
the six built-in entries plus the generic value parser. -/
inductive PFunc where
  | value | raw | literal | folded | isodate | timestamp | json

/-- The registry contents installed by parser creation. -/
def builtin_convspecs : List (List Char × PFunc) :=
  [("raw".toList, .raw), ("literal".toList, .literal), ("folded".toList, .folded),
   ("isodate".toList, .isodate), ("timestamp".toList, .timestamp),
   ("json".toList, .json)]

/-- Mirrors `have_custom_parser` for the built-in registry. -/
def have_custom_pfunc (name : List Char) : Bool :=
  (builtin_convspecs.find? (fun e => e.1 == name)).isSome

/-- Mirrors `get_custom_parser` for the built-in registry; the fallback is
never reached because the registry is checked first. -/
def get_custom_pfunc (name : List Char) : PFunc :=
  ((builtin_convspecs.find? (fun e => e.1 == name)).map (fun e => e.2)).getD .value

/-- Mirrors `amw_create_parser`: zero-initialized state with block level 1,
recursion cap 100 and `skip_comments` set, reading from the given lines. -/
def amw_parser_create (doc : List (List Char)) : AmwParser :=
  { markup := { lines := doc, pos := 0 }
    current_line := []
    current_indent := 0
    line_number := 0
    block_indent := 0
    blocklevel := 1
    max_blocklevel := 100
    skip_comments := true
    eof := false }

/-- Mirrors `read_line`: read the next line into `current_line`, strip trailing
spaces, measure the indent and record the 1-based line number. -/
def read_line (p : AmwParser) : UwRes × AmwParser :=
  if p.markup.pos < p.markup.lines.length then
    let line := uw_string_rtrim (p.markup.lines.getD p.markup.pos [])
    (.val .status,
     { p with
        markup := { p.markup with pos := p.markup.pos + 1 }
        current_line := line
        current_indent := uw_string_skip_spaces line 0
        line_number := p.markup.pos + 1 })
  else (.eofError, p)

/-- Mirrors `uw_unread_line`: one-deep push-back of the line just read. -/
def uw_unread_line (p : AmwParser) : AmwParser :=
  { p with markup := { p.markup with pos := p.markup.pos - 1 } }

/-- Mirrors `is_comment_line`: the first non-space character of the current
line is the comment character. -/
def is_comment_line (p : AmwParser) : Bool :=
  uw_char_at p.current_line p.current_indent = commentCh

/-- Mirrors `end_of_line`. -/
def end_of_line (l : List Char) (p : Nat) : Bool := l.length ≤ p

/-- Mirrors `isspace_or_eol_at`. -/
def isspace_or_eol_at (l : List Char) (p : Nat) : Bool :=
  if end_of_line l p then true else uw_isspace (uw_char_at l p)

/-- Loop of `_amw_read_block_line`; the fuel bounds the number of skipped
lines. -/
def read_block_line_loop : Nat → AmwParser → UwRes × AmwParser
  | 0, p => (.noFuel, p)
  | fuel + 1, p =>
      let r := read_line p
      let p1 := r.2
      if r.1.isEof then
        (.endOfBlock, { p1 with eof := true, current_line := [] })
      else if r.1.isError then (r.1, p1)
      else if p1.skip_comments ∧ uw_strlen p1.current_line = 0 then
        read_block_line_loop fuel p1
      else if p1.skip_comments ∧ is_comment_line p1 then
        read_block_line_loop fuel p1
      else
        let p2 := if p1.skip_comments then { p1 with skip_comments := false } else p1
        if uw_strlen p2.current_line = 0 then (.val .status, p2)
        else if p2.block_indent ≤ p2.current_indent then (.val .status, p2)
        else if is_comment_line p2 then read_block_line_loop fuel p2
        else
          (.endOfBlock, { (uw_unread_line p2) with current_line := [] })

/-- Mirrors `_amw_read_block_line`. -/
def amw_read_block_line (fuel : Nat) (p : AmwParser) : UwRes × AmwParser :=
  if p.eof then
    if p.blocklevel ≠ 0 then (.endOfBlock, p) else (.eofError, p)
  else read_block_line_loop fuel p

/-- Loop of `_amw_read_block`, accumulating the block lines. -/
def read_block_loop : Nat → AmwParser → List (List Char) →
    Except UwRes (List (List Char)) × AmwParser
  | 0, p, _ => (.error .noFuel, p)
  | fuel + 1, p, acc =>
      let acc := acc ++ [uw_substr_end p.current_line p.block_indent]
      let r := amw_read_block_line fuel p
      if r.1.isEndOfBlock then (.ok acc, r.2)
      else if r.1.isError then (.error r.1, r.2)
      else read_block_loop fuel r.2 acc

/-- Mirrors `_amw_read_block`. -/
def amw_read_block (fuel : Nat) (p : AmwParser) :
    Except UwRes (List (List Char)) × AmwParser :=
  read_block_loop fuel p []

/-- Mirrors the trailing-empty-line dropping loop of `parse_literal_string`. -/
def dropTrailingEmpty (ls : List (List Char)) : List (List Char) :=
  (ls.reverse.dropWhile (fun l => decide (l.length = 0))).reverse

/-- Mirrors `parse_raw_value`. -/
def parse_raw_value (fuel : Nat) (p : AmwParser) : UwRes × AmwParser :=
  match amw_read_block fuel p with
  | (.error e, p) => (e, p)
  | (.ok lines, p) =>
      let lines := if lines.length > 1 then lines ++ [[]] else lines
      (.val (.str (uw_list_join lfCh lines)), p)

/-- Mirrors `parse_literal_string`. -/
def parse_literal_string (fuel : Nat) (p : AmwParser) : UwRes × AmwParser :=
  match amw_read_block fuel p with
  | (.error e, p) => (e, p)
  | (.ok lines, p) =>
      let lines := dropTrailingEmpty (uw_list_dedent lines)
      let lines := if lines.length > 1 then lines ++ [[]] else lines
      (.val (.str (uw_list_join lfCh lines)), p)

/-- Mirrors `parse_folded_string`. -/
def parse_folded_string (fuel : Nat) (p : AmwParser) : UwRes × AmwParser :=
  match amw_read_block fuel p with
  | (.error e, p) => (e, p)
  | (.ok lines, p) =>
      let lines := (uw_list_dedent lines).filter (fun l => decide (l.length ≠ 0))
      if lines.length = 0 then (.val (.str []), p)
      else (.val (.str (uw_list_join ' ' lines)), p)

/-- Octal part of `_amw_unescape_line` (case `o`): up to three octal digits;
`i` counts the digits read so far, the countdown bounds the remaining ones.
Returns the code unit and the position of the last consumed character. -/
def octal_scan (line : List Char) (ln : Nat) : Nat → Nat → Nat → Nat →
    Except UwRes (Nat × Nat)
  | 0, pos, _, v => .ok (v, pos)
  | k + 1, pos, i, v =>
      let pos := pos + 1
      if end_of_line line pos then
        if i = 0 then .error (.parseError ln pos "Incomplete octal value")
        else .ok (v, pos)
      else
        let c := uw_char_at line pos
        if cv '0' ≤ cv c ∧ cv c ≤ cv '7' then
          octal_scan line ln k pos (i + 1) (v * 8 + (cv c - cv '0'))
        else .error (.parseError ln pos "Bad octal value")

/-- Hexadecimal part of `_amw_unescape_line` (cases `x`, `u`, `U`): exactly
`k` hexadecimal digits are required. -/
def hex_scan (line : List Char) (ln : Nat) : Nat → Nat → Nat →
    Except UwRes (Nat × Nat)
  | 0, pos, v => .ok (v, pos)
  | k + 1, pos, v =>
      let pos := pos + 1
      if end_of_line line pos then
        .error (.parseError ln pos "Incomplete hexadecimal value")
      else
        let c := uw_char_at line pos
        if cv '0' ≤ cv c ∧ cv c ≤ cv '9' then
          hex_scan line ln k pos (v * 16 + (cv c - cv '0'))
        else if cv 'a' ≤ cv c ∧ cv c ≤ cv 'f' then
          hex_scan line ln k pos (v * 16 + (cv c - cv 'a' + 10))
        else if cv 'A' ≤ cv c ∧ cv c ≤ cv 'F' then
          hex_scan line ln k pos (v * 16 + (cv c - cv 'A' + 10))
        else .error (.parseError ln pos "Bad hexadecimal value")

/-- Main loop of `_amw_unescape_line`.  The countdown bounds the remaining
iterations (each iteration advances the position by at least one).  Appending
a decoded code unit goes through `Char.ofNat`, the model of the host append. -/
def unescape_go (line : List Char) (ln : Nat) (quote : Char) :
    Nat → Nat → List Char → UwRes × Nat
  | 0, pos, _ => (.noFuel, pos)
  | n + 1, pos, acc =>
      if end_of_line line pos then (.val (.str acc), pos)
      else
        let chr := uw_char_at line pos
        if chr = quote then (.val (.str acc), pos)
        else if chr ≠ bslash then unescape_go line ln quote n (pos + 1) (acc ++ [chr])
        else
          let pos := pos + 1
          if end_of_line line pos then
            -- the source appends the backslash and then returns the plain OK
            -- status itself as the result, without writing the end position
            (.val .status, pos)
          else
            let chr2 := uw_char_at line pos
            if chr2 = squote ∨ chr2 = dquote ∨ chr2 = '?' ∨ chr2 = bslash then
              unescape_go line ln quote n (pos + 1) (acc ++ [chr2])
            else if chr2 = 'a' then unescape_go line ln quote n (pos + 1) (acc ++ [Char.ofNat 7])
            else if chr2 = 'b' then unescape_go line ln quote n (pos + 1) (acc ++ [Char.ofNat 8])
            else if chr2 = 'f' then unescape_go line ln quote n (pos + 1) (acc ++ [Char.ofNat 12])
            else if chr2 = 'n' then unescape_go line ln quote n (pos + 1) (acc ++ [Char.ofNat 10])
            else if chr2 = 'r' then unescape_go line ln quote n (pos + 1) (acc ++ [Char.ofNat 13])
            else if chr2 = 't' then unescape_go line ln quote n (pos + 1) (acc ++ [Char.ofNat 9])
            else if chr2 = 'v' then unescape_go line ln quote n (pos + 1) (acc ++ [Char.ofNat 11])
            else if chr2 = 'o' then
              match octal_scan line ln 3 pos 0 0 with
              | .error e => (e, pos)
              | .ok (v, pos2) => unescape_go line ln quote n (pos2 + 1) (acc ++ [Char.ofNat v])
            else if chr2 = 'x' then
              match hex_scan line ln 2 pos 0 with
              | .error e => (e, pos)
              | .ok (v, pos2) => unescape_go line ln quote n (pos2 + 1) (acc ++ [Char.ofNat v])
            else if chr2 = 'u' then
              match hex_scan line ln 4 pos 0 with
              | .error e => (e, pos)
              | .ok (v, pos2) => unescape_go line ln quote n (pos2 + 1) (acc ++ [Char.ofNat v])
            else if chr2 = 'U' then
              match hex_scan line ln 8 pos 0 with
              | .error e => (e, pos)
              | .ok (v, pos2) => unescape_go line ln quote n (pos2 + 1) (acc ++ [Char.ofNat v])
            else unescape_go line ln quote n (pos + 1) (acc ++ [bslash, chr2])

/-- Mirrors `_amw_unescape_line`; returns the result and the final position
(the out-parameter `end_pos`). -/
def amw_unescape_line (line : List Char) (ln : Nat) (quote : Char)
    (start_pos : Nat) : UwRes × Nat :=
  if line.length ≤ start_pos then (.val (.str []), start_pos)
  else unescape_go line ln quote (line.length + 1 - start_pos) start_pos []

/-- Loop of `find_closing_quote`; each iteration restarts the search after an
escaped quote, so the countdown bounds the iterations. -/
def find_closing_quote_go (line : List Char) (quote : Char) : Nat → Nat → Option Nat
  | 0, _ => none
  | n + 1, start =>
      match uw_strchr line quote start with
      | none => none
      | some q =>
          if q ≠ 0 ∧ uw_char_at line (q - 1) = bslash then
            find_closing_quote_go line quote n (q + 1)
          else some (q + 1)

/-- Mirrors `find_closing_quote`: position one past the closing quote, or
`none`.  A quote directly preceded by a backslash is considered escaped. -/
def find_closing_quote (line : List Char) (quote : Char) (start : Nat) : Option Nat :=
  find_closing_quote_go line quote (line.length + 1 - start) start

/-- Per-line unescape loop of `parse_quoted_string` (the multi-line case).
The source takes the line number for each line from the `lines` list itself
rather than from the `line_numbers` list, so the number passed to
`_amw_unescape_line` is the unsigned field of a string value, modelled by
`uwUnsignedField`.  A non-string success result (the stray OK status produced
for a line ending in a lone backslash) is stored into the line list by the
source; joining it is outside the host contract and is modelled as an empty
segment. -/
def unescape_lines (quote : Char) : List (List Char) → Except UwRes (List (List Char))
  | [] => .ok []
  | l :: rest =>
      match amw_unescape_line l (uwUnsignedField (.str l)) quote 0 with
      | (.val (.str s), _) =>
          match unescape_lines quote rest with
          | .ok rs => .ok (s :: rs)
          | .error e => .error e
      | (.val _, _) =>
          match unescape_lines quote rest with
          | .ok rs => .ok ([] :: rs)
          | .error e => .error e
      | (e, _) => .error e

/-- Line-collecting loop of `parse_quoted_string` for multi-line strings.
Returns the accumulated lines, the (subsequently unused) line numbers, the
closing-quote flag and the end position when the closing quote was found. -/
def quoted_block_loop (quote : Char) (opening_quote_pos : Nat) :
    Nat → AmwParser → List (List Char) → List Nat →
    Except UwRes (List (List Char) × List Nat × Bool × Nat) × AmwParser
  | 0, p, _, _ => (.error .noFuel, p)
  | fuel + 1, p, lines, lnums =>
      let line := uw_substr_end p.current_line p.block_indent
      let lnums := lnums ++ [p.line_number]
      match find_closing_quote p.current_line quote (opening_quote_pos + 1) with
      | some e =>
          (.ok (lines ++ [uw_substr line 0 (e - 1)], lnums, true, e), p)
      | none =>
          let lines := lines ++ [line]
          let r := amw_read_block_line fuel p
          if r.1.isEndOfBlock then (.ok (lines, lnums, false, 0), r.2)
          else if r.1.isError then (.error r.1, r.2)
          else quoted_block_loop quote opening_quote_pos fuel r.2 lines lnums

/-- Mirrors `parse_quoted_string`; returns the parsed value together with the
end position (the out-parameter).  On an error inside the line-collecting loop
the block indent is not restored, as in the source. -/
def parse_quoted_string (fuel : Nat) (p : AmwParser) (opening_quote_pos : Nat) :
    (UwRes × Nat) × AmwParser :=
  let quote := uw_char_at p.current_line opening_quote_pos
  match find_closing_quote p.current_line quote (opening_quote_pos + 1) with
  | some e =>
      let r := amw_unescape_line p.current_line p.line_number quote (opening_quote_pos + 1)
      ((r.1, e), p)
  | none =>
      let saved := p.block_indent
      let p := { p with block_indent := opening_quote_pos + 1 }
      match quoted_block_loop quote opening_quote_pos fuel p [] [] with
      | (.error e, p) => ((e, 0), p)
      | (.ok (lines, _lnums, detected, e0), p) =>
          let p := { p with block_indent := saved }
          if detected ∨ (p.current_indent = opening_quote_pos ∧
              uw_char_at p.current_line p.current_indent = quote) then
            let end_pos := if detected then e0 else opening_quote_pos + 1
            let lines := (uw_list_dedent lines).filter (fun l => decide (l.length ≠ 0))
            if lines.length = 0 then ((.val (.str []), end_pos), p)
            else
              match unescape_lines quote lines with
              | .error e => ((e, end_pos), p)
              | .ok ls => ((.val (.str (uw_list_join ' ' ls)), end_pos), p)
          else
            ((.parseError p.line_number p.current_indent
                "String contains no closing quote", 0), p)

/-- Stub sub-parsers `parse_isodate` and `parse_timestamp`, and the external
`_amw_json_parser_func`: all return the NOT-IMPLEMENTED status. -/
def parse_stub (p : AmwParser) : UwRes × AmwParser := (.notImplemented, p)

/-- Digit classification of `parse_unsigned` (the radix-16 chain and the
generic radix branch), written with code points as in the C source. -/
def digit_value (radix : Nat) (chr : Char) : Option Nat :=
  if radix = 16 then
    if cv 'a' ≤ cv chr ∧ cv chr ≤ cv 'f' then some (cv chr - cv 'a' + 10)
    else if cv 'A' ≤ cv chr ∧ cv chr ≤ cv 'F' then some (cv chr - cv 'A' + 10)
    else if cv '0' ≤ cv chr ∧ cv chr ≤ cv '9' then some (cv chr - cv '0')
    else none
  else if cv '0' ≤ cv chr ∧ cv chr < cv '0' + radix then some (cv chr - cv '0')
  else none

/-- Loop of `parse_unsigned`.  The accumulator is a 64-bit unsigned value,
modelled as a natural number reduced modulo `2 ^ 64` at each step; the
source's wrap-around check compares the new accumulator with the previous
one.  `err_pos` is the position the overflow error reports (the value of the
in/out position parameter, i.e. the start of the magnitude). -/
def parse_unsigned_go (line : List Char) (ln : Nat) (radix : Nat) (err_pos : Nat) :
    Nat → Nat → Nat → Bool → Bool → UwRes × Nat
  | 0, pos, _, _, _ => (.noFuel, pos)
  | n + 1, pos, acc, digit_seen, separator_seen =>
      let chr := uw_char_at line pos
      if chr = squote ∨ chr = '_' then
        if separator_seen then (.parseError ln pos "Duplicate separator in the number", pos)
        else if ¬ digit_seen then
          (.parseError ln pos "Separator is not allowed in the beginning of number", pos)
        else if end_of_line line (pos + 1) then (.parseError ln (pos + 1) "Bad number", pos + 1)
        else parse_unsigned_go line ln radix err_pos n (pos + 1) acc digit_seen true
      else
        match digit_value radix chr with
        | none =>
            if ¬ digit_seen then (.parseError ln pos "Bad number", pos)
            else (.val (.uint acc), pos)
        | some d =>
            let acc2 := (acc * radix + d) % 2 ^ 64
            if acc2 < acc then (.parseError ln err_pos "Numeric overflow", pos)
            else if end_of_line line (pos + 1) then (.val (.uint acc2), pos + 1)
            else parse_unsigned_go line ln radix err_pos n (pos + 1) acc2 true false

/-- Mirrors `parse_unsigned`; returns the value and the final position. -/
def parse_unsigned (line : List Char) (ln : Nat) (pos : Nat) (radix : Nat) :
    UwRes × Nat :=
  parse_unsigned_go line ln radix pos (line.length + 1 - pos) pos 0 false false

/-- Loop of `skip_digits`. -/
def skip_digits_go (line : List Char) : Nat → Nat → Nat
  | 0, pos => pos
  | n + 1, pos =>
      if end_of_line line pos then pos
      else if cv '0' ≤ cv (uw_char_at line pos) ∧ cv (uw_char_at line pos) ≤ cv '9' then
        skip_digits_go line n (pos + 1)
      else pos

/-- Mirrors `skip_digits`. -/
def skip_digits (line : List Char) (pos : Nat) : Nat :=
  skip_digits_go line (line.length + 1 - pos) pos

/-- The UW_SIGNED_MAX constant: the largest 64-bit signed integer. -/
def uwSignedMax : Nat := 2 ^ 63 - 1

/-- Tail of `_amw_parse_number` (label `done`): build the resulting value.
The float branch keeps the recovered substring symbolically because the
conversion (`strtod`) is host code. -/
def number_done (line : List Char) (ln : Nat) (start_pos : Nat) (sign : Int)
    (is_float : Bool) (base : Nat) (pos : Nat) : UwRes × Nat :=
  if is_float then
    (.val (.float (uw_substr line start_pos pos) (decide (sign < 0))), pos)
  else if uwSignedMax < base then
    if sign < 0 then (.parseError ln start_pos "Integer overflow", pos)
    else (.val (.uint base), pos)
  else if sign < 0 ∧ base ≠ 0 then (.val (.sint (-(base : Int))), pos)
  else (.val (.sint (base : Int)), pos)

/-- Exponent and terminator checks of `_amw_parse_number`. -/
def number_exp_part (line : List Char) (ln : Nat) (start_pos : Nat) (sign : Int)
    (radix : Nat) (is_float : Bool) (base : Nat) (pos : Nat) : UwRes × Nat :=
  let chr := uw_char_at line pos
  if chr = 'e' ∨ chr = 'E' then
    if radix ≠ 10 then
      (.parseError ln start_pos
        "Only decimal representation is supported for floating point numbers", pos)
    else
      let pos := pos + 1
      if end_of_line line pos then number_done line ln start_pos sign true base pos
      else
        let chr := uw_char_at line pos
        let pos := if chr = '-' ∨ chr = '+' then pos + 1 else pos
        number_done line ln start_pos sign true base (skip_digits line pos)
  else if chr ≠ commentCh ∧ chr ≠ ':' ∧ ¬ uw_isspace chr then
    (.parseError ln start_pos "Bad number", pos)
  else number_done line ln start_pos sign is_float base pos

/-- Magnitude, fraction and exponent part of `_amw_parse_number`, after the
radix has been determined. -/
def number_after_radix (line : List Char) (ln : Nat) (start_pos : Nat) (sign : Int)
    (radix pos : Nat) : UwRes × Nat :=
  match parse_unsigned line ln pos radix with
  | (.val (.uint base), pos) =>
      if end_of_line line pos then number_done line ln start_pos sign false base pos
      else
        let chr := uw_char_at line pos
        if chr = '.' then
          if radix ≠ 10 then
            (.parseError ln start_pos
              "Only decimal representation is supported for floating point numbers", pos)
          else
            let pos := skip_digits line (pos + 1)
            if end_of_line line pos then number_done line ln start_pos sign true base pos
            else number_exp_part line ln start_pos sign radix true base pos
        else number_exp_part line ln start_pos sign radix false base pos
  | (e, pos) => (e, pos)

/-- Mirrors `_amw_parse_number`: radix detection followed by the magnitude
and float parts; returns the value and the end position. -/
def amw_parse_number (p : AmwParser) (start_pos : Nat) (sign : Int) : UwRes × Nat :=
  let line := p.current_line
  let ln := p.line_number
  if uw_char_at line start_pos = '0' then
    let pos := start_pos + 1
    if end_of_line line pos then number_done line ln start_pos sign false 0 pos
    else
      let c := uw_char_at line pos
      let rp : Nat × Nat :=
        if c = 'b' ∨ c = 'B' then (2, pos + 1)
        else if c = 'o' ∨ c = 'O' then (8, pos + 1)
        else if c = 'x' ∨ c = 'X' then (16, pos + 1)
        else (10, pos)
      if end_of_line line rp.2 then (.parseError ln start_pos "Bad number", rp.2)
      else number_after_radix line ln start_pos sign rp.1 rp.2
  else number_after_radix line ln start_pos sign 10 start_pos

/-- Mirrors `comment_or_end_of_line`. -/
def comment_or_end_of_line (p : AmwParser) (position : Nat) : Bool :=
  let position := uw_string_skip_spaces p.current_line position
  end_of_line p.current_line position ||
    uw_char_at p.current_line position = commentCh

/-- Mirrors `get_start_position`. -/
def get_start_position (p : AmwParser) : Nat :=
  if p.block_indent < p.current_indent then p.current_indent
  else uw_string_skip_spaces p.current_line p.block_indent

/-- Mirrors `parse_convspec`: the conversion specifier between two colons, and
the position of the closing colon, or `none` when the text between the colons
is not a registered specifier. -/
def parse_convspec (p : AmwParser) (opening_colon_pos : Nat) :
    Option (List Char × Nat) :=
  let start_pos := opening_colon_pos + 1
  match uw_strchr p.current_line ':' start_pos with
  | none => none
  | some e =>
      if e = start_pos then none
      else if ¬ isspace_or_eol_at p.current_line (e + 1) then none
      else
        let convspec := uw_string_trim (uw_substr p.current_line start_pos e)
        if have_custom_pfunc convspec then some (convspec, e) else none

/-- Mirrors `is_kv_separator`: a colon qualifies when followed by end of line,
whitespace, or a registered conversion specifier. -/
def is_kv_separator (p : AmwParser) (colon_pos : Nat) : Bool :=
  if end_of_line p.current_line (colon_pos + 1) then true
  else
    let chr := uw_char_at p.current_line (colon_pos + 1)
    if uw_isspace chr then true
    else if chr ≠ ':' then false
    else (parse_convspec p colon_pos).isSome

mutual

/-- Runs a registry entry or the generic value parser; this defunctionalizes
the block-parser function pointers of the source. -/
def runPFunc (fuel0 : Nat) (f0 : PFunc) (p0 : AmwParser) : UwRes × AmwParser :=
  match fuel0, f0, p0 with
  | 0, _, p => (.noFuel, p)
  | fuel + 1, f, p =>
      match f with
      | .value =>
          -- value_parser_func: parse_value with a null nested_value_pos
          let r := parse_value fuel false p
          (r.1.1, r.2)
      | .raw => parse_raw_value fuel p
      | .literal => parse_literal_string fuel p
      | .folded => parse_folded_string fuel p
      | .isodate => parse_stub p
      | .timestamp => parse_stub p
      | .json => parse_stub p
termination_by structural fuel0

/-- Mirrors `parse_nested_block`. -/
def parse_nested_block (fuel0 : Nat) (p0 : AmwParser) (bp0 : Nat) (f0 : PFunc) : UwRes × AmwParser :=
  match fuel0, p0, bp0, f0 with
  | 0, p, _, _ => (.noFuel, p)
  | fuel + 1, p, block_pos, f =>
      if p.max_blocklevel ≤ p.blocklevel then
        (.parseError p.line_number p.current_indent "Too many nested blocks", p)
      else
        let saved := p.block_indent
        let p := { p with blocklevel := p.blocklevel + 1, block_indent := block_pos }
        let r := runPFunc fuel f p
        (r.1, { r.2 with block_indent := saved, blocklevel := r.2.blocklevel - 1 })
termination_by structural fuel0

/-- Mirrors `parse_nested_block_from_next_line`. -/
def parse_nested_block_from_next_line (fuel0 : Nat) (p0 : AmwParser) (f0 : PFunc) : UwRes × AmwParser :=
  match fuel0, p0, f0 with
  | 0, p, _ => (.noFuel, p)
  | fuel + 1, p, f =>
      let p := { p with block_indent := p.block_indent + 1 }
      let r := amw_read_block_line fuel p
      let p := { r.2 with block_indent := r.2.block_indent - 1 }
      if r.1.isEndOfBlock then
        (.parseError p.line_number p.current_indent "Empty block", p)
      else if r.1.isError then (r.1, p)
      else parse_nested_block fuel p (p.block_indent + 1) f
termination_by structural fuel0

/-- Mirrors `check_value_end`: after a scalar, skip spaces and either read the
next line, re-enter map parsing on a key-value separator, report the post-
separator position when a key was expected, or fail.  The optional `Nat` is
the written-back `nested_value_pos`; `none` means the out-parameter was left
untouched. -/
def check_value_end (fuel0 : Nat) (p0 : AmwParser) (v0 : UwRes) (e0 : Nat) (w0 : Bool) :
    (UwRes × Option Nat) × AmwParser :=
  match fuel0, p0, v0, e0, w0 with
  | 0, p, _, _, _ => ((.noFuel, none), p)
  | fuel + 1, p, value, end_pos, wantKey =>
      if value.isError then ((value, none), p)
      else
        let end_pos := uw_string_skip_spaces p.current_line end_pos
        if end_of_line p.current_line end_pos then
          if wantKey then
            ((.parseError p.line_number end_pos "Map key expected", none), p)
          else
            let r := amw_read_block_line fuel p
            if r.1.isEndOfBlock then ((value, none), r.2)
            else if r.1.isError then ((r.1, none), r.2)
            else ((value, none), r.2)
        else
          let chr := uw_char_at p.current_line end_pos
          if chr = ':' then
            if is_kv_separator p end_pos then
              if wantKey then ((value, some (end_pos + 1)), p)
              else
                match value with
                | .val v =>
                    let r := parse_map fuel p v (end_pos + 2)
                    ((r.1, none), r.2)
                | _ => ((value, none), p)
            else
              ((.parseError p.line_number (end_pos + 1) "Bad character encountered",
                none), p)
          else if chr ≠ commentCh then
            ((.parseError p.line_number end_pos "Bad character encountered", none), p)
          else
            let r := amw_read_block_line fuel p
            if r.1.isEndOfBlock then ((value, none), r.2)
            else if r.1.isError then ((r.1, none), r.2)
            else ((value, none), r.2)
termination_by structural fuel0

/-- Loop of `parse_list`; all items must share the indent of the first one. -/
def parse_list_loop (fuel0 : Nat) (p0 : AmwParser) (a0 : List AmwValue) (i0 : Nat) : UwRes × AmwParser :=
  match fuel0, p0, a0, i0 with
  | 0, p, _, _ => (.noFuel, p)
  | fuel + 1, p, acc, item_indent =>
      let next_pos := item_indent + 1
      if ¬ isspace_or_eol_at p.current_line next_pos then
        (.parseError p.line_number item_indent "Bad list item", p)
      else
        let r :=
          if comment_or_end_of_line p next_pos then
            parse_nested_block_from_next_line fuel p .value
          else
            parse_nested_block fuel p (next_pos + 1) .value
        match r with
        | (.val v, p) =>
            let acc := acc ++ [v]
            let r2 := amw_read_block_line fuel p
            if r2.1.isEndOfBlock then (.val (.list acc), r2.2)
            else if r2.1.isError then (r2.1, r2.2)
            else if r2.2.current_indent ≠ item_indent then
              (.parseError r2.2.line_number r2.2.current_indent
                "Bad indentation of list item", r2.2)
            else parse_list_loop fuel r2.2 acc item_indent
        | (e, p) => (e, p)
termination_by structural fuel0

/-- Mirrors `parse_list`. -/
def parse_list (fuel0 : Nat) (p0 : AmwParser) : UwRes × AmwParser :=
  match fuel0, p0 with
  | 0, p => (.noFuel, p)
  | fuel + 1, p => parse_list_loop fuel p [] (get_start_position p)
termination_by structural fuel0

/-- Loop of `parse_map`: parse the value of the current key, then read the
next line and parse the next key.  A key parse that does not write the
out-parameter leaves the previous `value_pos` in effect, as in the source. -/
def parse_map_loop (fuel0 : Nat) (p0 : AmwParser) (a0 : List (AmwValue × AmwValue))
    (k0 : AmwValue) (ki0 : Nat) (vp0 : Nat) : UwRes × AmwParser :=
  match fuel0, p0, a0, k0, ki0, vp0 with
  | 0, p, _, _, _, _ => (.noFuel, p)
  | fuel + 1, p, acc, key, key_indent, value_pos =>
      let r :=
        if comment_or_end_of_line p value_pos then
          parse_nested_block_from_next_line fuel p .value
        else
          parse_nested_block fuel p value_pos .value
      match r with
      | (.val v, p) =>
          let acc := uw_map_update acc key v
          let r2 := amw_read_block_line fuel p
          if r2.1.isEndOfBlock then (.val (.map acc), r2.2)
          else if r2.1.isError then (r2.1, r2.2)
          else if r2.2.current_indent ≠ key_indent then
            (.parseError r2.2.line_number r2.2.current_indent
              "Bad indentation of map key", r2.2)
          else
            let rk := parse_value fuel true r2.2
            match rk with
            | ((.val k, vpos), p) =>
                parse_map_loop fuel p acc k key_indent (vpos.getD value_pos)
            | ((e, _), p) => (e, p)
      | (e, p) => (e, p)
termination_by structural fuel0

/-- Mirrors `parse_map`; entered with the first key parsed and `value_pos`
just past the key-value separator. -/
def parse_map (fuel0 : Nat) (p0 : AmwParser) (k0 : AmwValue) (vp0 : Nat) : UwRes × AmwParser :=
  match fuel0, p0, k0, vp0 with
  | 0, p, _, _ => (.noFuel, p)
  | fuel + 1, p, first_key, value_pos =>
      parse_map_loop fuel p [] first_key (get_start_position p) value_pos
termination_by structural fuel0

/-- Mirrors `parse_literal_string_or_map`: a key-value separator in the first
line selects map parsing, otherwise the block is a literal string. -/
def parse_literal_string_or_map (fuel0 : Nat) (p0 : AmwParser) : UwRes × AmwParser :=
  match fuel0, p0 with
  | 0, p => (.noFuel, p)
  | fuel + 1, p =>
      let start_pos := get_start_position p
      match uw_strchr p.current_line ':' start_pos with
      | some colon_pos =>
          if is_kv_separator p colon_pos then
            let first_key := uw_string_trim (uw_substr p.current_line start_pos colon_pos)
            parse_map fuel p (.str first_key) (colon_pos + 2)
          else parse_literal_string fuel p
      | none => parse_literal_string fuel p
termination_by structural fuel0

/-- Mirrors `parse_value`.  When `wantKey` is set the value is expected to be
a map key; the optional `Nat` of the result is the written `nested_value_pos`
(`none` when the source leaves the out-parameter untouched). -/
def parse_value (fuel0 : Nat) (w0 : Bool) (p0 : AmwParser) : (UwRes × Option Nat) × AmwParser :=
  match fuel0, w0, p0 with
  | 0, _, p => ((.noFuel, none), p)
  | fuel + 1, wantKey, p =>
      let start_pos := get_start_position p
      let chr := uw_char_at p.current_line start_pos
      if chr = ':' then
        if wantKey then
          ((.parseError p.line_number start_pos
             "Map key expected and it cannot start with colon", none), p)
        else
          match parse_convspec p start_pos with
          | none =>
              let r := parse_literal_string fuel p
              ((r.1, none), r.2)
          | some (convspec, value_pos) =>
              if end_of_line p.current_line value_pos then
                let r := parse_nested_block_from_next_line fuel p (get_custom_pfunc convspec)
                ((r.1, none), r.2)
              else
                let r := parse_nested_block fuel p value_pos (get_custom_pfunc convspec)
                ((r.1, none), r.2)
      else if chr = '-' then
        let next_pos := start_pos + 1
        let next_chr := uw_char_at p.current_line next_pos
        if cv '0' ≤ cv next_chr ∧ cv next_chr ≤ cv '9' then
          let rn := amw_parse_number p next_pos (-1)
          check_value_end fuel p rn.1 rn.2 wantKey
        else if isspace_or_eol_at p.current_line next_pos then
          if wantKey then
            ((.parseError p.line_number start_pos
               "Map key expected and it cannot be a list", none), p)
          else
            let r := parse_list fuel p
            ((r.1, none), r.2)
        else
          let r := parse_literal_string_or_map fuel p
          ((r.1, none), r.2)
      else if chr = dquote ∨ chr = dquote then
        -- the source compares against the literals '"' and '\"', which are
        -- the same character
        let start_line := p.line_number
        let rq := parse_quoted_string fuel p start_pos
        if rq.1.1.isError then ((rq.1.1, none), rq.2)
        else
          let p := rq.2
          let end_pos := rq.1.2
          if p.line_number = start_line then
            check_value_end fuel p rq.1.1 end_pos wantKey
          else if comment_or_end_of_line p end_pos then ((rq.1.1, none), p)
          else
            ((.parseError p.line_number end_pos "Bad character after quoted string",
              none), p)
      else if uw_substring_eq_cstr p.current_line start_pos (start_pos + 4) "null".toList then
        check_value_end fuel p (.val .null) (start_pos + 4) wantKey
      else if uw_substring_eq_cstr p.current_line start_pos (start_pos + 4) "true".toList then
        check_value_end fuel p (.val (.bool true)) (start_pos + 4) wantKey
      else if uw_substring_eq_cstr p.current_line start_pos (start_pos + 5) "false".toList then
        check_value_end fuel p (.val (.bool false)) (start_pos + 5) wantKey
      else
        let sp2 :=
          if chr = '+' then
            let next_chr := uw_char_at p.current_line (start_pos + 1)
            if cv '0' ≤ cv next_chr ∧ cv next_chr ≤ cv '9' then
              (start_pos + 1, next_chr)
            else (start_pos, chr)
          else (start_pos, chr)
        if cv '0' ≤ cv sp2.2 ∧ cv sp2.2 ≤ cv '9' then
          let rn := amw_parse_number p sp2.1 1
          check_value_end fuel p rn.1 rn.2 wantKey
        else
          let r := parse_literal_string_or_map fuel p
          ((r.1, none), r.2)
termination_by structural fuel0

end

/-- Mirrors `amw_parse`: read the first line, parse the top-level value, and
check that no more data follows. -/
def amw_parse_fueled (fuel : Nat) (doc : List (List Char)) : UwRes :=
  let p := amw_parser_create doc
  let r := amw_read_block_line fuel p
  if r.1.isEndOfBlock ∧ r.2.eof then .eofError
  else if r.1.isError then r.1
  else
    let rv := parse_value fuel false r.2
    if rv.1.1.isError then rv.1.1
    else
      let r2 := amw_read_block_line fuel rv.2
      if r2.2.eof then rv.1.1
      else if r2.1.isError then r2.1
      else
        .parseError r2.2.line_number r2.2.current_indent "Extra data after parsed value"

/-- Fuel that suffices for every claim in this development: line loops consume
at most one unit per input line, and the recursion depth is bounded by the
document size. -/
def docFuel (doc : List (List Char)) : Nat :=
  doc.foldr (fun l a => l.length + a) 0 + doc.length + 64

/-- The public entry point `amw_parse`, applied to a document given as a list
of lines. -/
def amw_parse (doc : List (List Char)) : UwRes :=
  amw_parse_fueled (docFuel doc) doc

/-- Spec-side input construction: the ASCII character for the digit value `d`
below 16, using lowercase letters for 10..15. -/
def digitChar (d : Nat) : Char := Char.ofNat (if d < 10 then 48 + d else 87 + d)

/-- Spec-side input construction: the digit values of `n` in radix `r`, most
significant first, with `[0]` for zero. -/
def digitsBE (r n : Nat) : List Nat := if n = 0 then [0] else (Nat.digits r n).reverse

/-- Left fold of digit values, mirroring the accumulator of `parse_unsigned`
without the 64-bit reduction. -/
def accum (r : Nat) (a : Nat) (ds : List Nat) : Nat := ds.foldl (fun x d => x * r + d) a

/-- Spec-side input construction: `n` written in decimal. -/
def decLine (n : Nat) : List Char := (digitsBE 10 n).map digitChar

/-- Spec-side input construction: `n` written as `0b` plus binary digits. -/
def binLine (n : Nat) : List Char := '0' :: 'b' :: (digitsBE 2 n).map digitChar

/-- Spec-side input construction: `n` written as `0o` plus octal digits. -/
def octLine (n : Nat) : List Char := '0' :: 'o' :: (digitsBE 8 n).map digitChar

/-- Spec-side input construction: `n` written as `0x` plus hexadecimal
digits. -/
def hexLine (n : Nat) : List Char := '0' :: 'x' :: (digitsBE 16 n).map digitChar

/-- Parser state after reading the single line `L` of a one-line document. -/
def oneLineState (L : List Char) : AmwParser :=
  { markup := { lines := [L], pos := 1 }, current_line := L, current_indent := 0,
    line_number := 1, block_indent := 0, blocklevel := 1, max_blocklevel := 100,
    skip_comments := false, eof := false }

/-- The same one-line-document state after the reader has hit end of input. -/
def oneLineEofState (L : List Char) : AmwParser :=
  { markup := { lines := [L], pos := 1 }, current_line := [], current_indent := 0,
    line_number := 1, block_indent := 0, blocklevel := 1, max_blocklevel := 100,
    skip_comments := false, eof := true }

/-- Spec-side input construction: the decoded character of a JSON-style
single-character escape, or `none` when the character does not form one. -/
def escCode (e : Char) : Option Char :=
  if e = squote ∨ e = dquote ∨ e = '?' ∨ e = bslash then some e
  else if e = 'a' then some (Char.ofNat 7)
  else if e = 'b' then some (Char.ofNat 8)
  else if e = 'f' then some (Char.ofNat 12)
  else if e = 'n' then some (Char.ofNat 10)
  else if e = 'r' then some (Char.ofNat 13)
  else if e = 't' then some (Char.ofNat 9)
  else if e = 'v' then some (Char.ofNat 11)
  else none

/-- Spec-side input restriction, following the claim text: an ASCII body with
no line feed and no unescaped double quote or backslash, where every backslash
starts a recognized single-character escape. -/
def validBody : List Char → Bool
  | [] => true
  | [c] => (c != bslash) && (c != dquote) && (c != lfCh) && decide (c.toNat < 128)
  | c :: e :: rest =>
      if c = bslash then (escCode e).isSome && validBody rest
      else ((c != dquote) && (c != lfCh) && decide (c.toNat < 128)) && validBody (e :: rest)

/-- Spec-side decoding of the escapes of a body, following the claim text. -/
def decodeEscapes : List Char → List Char
  | [] => []
  | [c] => [c]
  | c :: e :: rest =>
      if c = bslash then ((escCode e).getD e) :: decodeEscapes rest
      else c :: decodeEscapes (e :: rest)

/-- Invariant of the block-reader loop: a successful return leaves either a
line indented at least to the block indent, or an empty line. -/
theorem read_block_line_loop_ok : ∀ (fuel : Nat) (p q : AmwParser),
    read_block_line_loop fuel p = (.val .status, q) →
    q.block_indent ≤ q.current_indent ∨ q.current_line = [] := by
  intro fuel
  induction fuel with
  | zero =>
      intro p q h
      simp [read_block_line_loop] at h
  | succ n ih =>
      intro p q h
      rw [read_block_line_loop] at h
      simp only [] at h
      split_ifs at h with c1 c2 c3 c4 c5 c6 c7 c8 c9 c10 c11
      · simp at h
      · injection h with hl hr
        rw [hl] at c2
        simp [UwRes.isError] at c2
      · exact ih _ _ h
      · exact ih _ _ h
      · injection h with hl hr
        subst hr
        right
        simp only [uw_strlen] at c6
        exact List.eq_nil_of_length_eq_zero c6
      · injection h with hl hr
        subst hr
        left
        exact c7
      · exact ih _ _ h
      · simp at h
      · injection h with hl hr
        subst hr
        right
        simp only [uw_strlen] at c9
        exact List.eq_nil_of_length_eq_zero c9
      · injection h with hl hr
        subst hr
        left
        exact c10
      · exact ih _ _ h
      · simp at h

/-- Claim C6: after every call to `_amw_read_block_line` that returns success
(not END-OF-BLOCK and not an error), either `current_indent ≥ block_indent` or
`current_line` is the empty string. -/
theorem claim6_theorem (fuel : Nat) (p q : AmwParser)
    (h : amw_read_block_line fuel p = (.val .status, q)) :
    q.block_indent ≤ q.current_indent ∨ q.current_line = [] := by
  rw [amw_read_block_line] at h
  split at h
  · split at h <;> simp at h
  · exact read_block_line_loop_ok fuel p q h

/-- Claim C6, witness: on the one-line document `hi` the first read succeeds
and the invariant holds. -/
theorem claim6_witness :
    (amw_read_block_line 3 (amw_parser_create ["hi".toList])).2.block_indent ≤
      (amw_read_block_line 3 (amw_parser_create ["hi".toList])).2.current_indent ∨
    (amw_read_block_line 3 (amw_parser_create ["hi".toList])).2.current_line = [] :=
  claim6_theorem 3 (amw_parser_create ["hi".toList])
    (amw_read_block_line 3 (amw_parser_create ["hi".toList])).2 rfl

/-- Claim C1, counterexample: `42` parses to 42, but appending two comment
lines after the top-level value changes the result to the parse error
"Extra data after parsed value", so comment insertion after the top-level
value is not invariant and does trigger the error. -/
theorem claim1_counterexample :
    amw_parse ["42".toList] = .val (.sint 42) ∧
    amw_parse ["42".toList, "#a".toList, "#b".toList] =
      .parseError 3 0 "Extra data after parsed value" ∧
    amw_parse ["42".toList, "#a".toList, "#b".toList] ≠ amw_parse ["42".toList] := by
  refine ⟨rfl, rfl, ?_⟩
  intro h
  rw [show amw_parse ["42".toList] = .val (.sint 42) from rfl,
      show amw_parse ["42".toList, "#a".toList, "#b".toList] =
        .parseError 3 0 "Extra data after parsed value" from rfl] at h
  exact UwRes.noConfusion h

/-- Claim C2, counterexample: a comment line above a nested block's first real
content is not skipped; it becomes part of the block and of the parsed value,
so `skip_comments` is not re-established on entry to a nested block. -/
theorem claim2_counterexample :
    amw_parse ["k:".toList, "    # c".toList, "    x".toList] =
      .val (.map [(.str "k".toList, .str "# c\nx\n".toList)]) ∧
    amw_parse ["k:".toList, "    x".toList] =
      .val (.map [(.str "k".toList, .str "x".toList)]) ∧
    amw_parse ["k:".toList, "    # c".toList, "    x".toList] ≠
      amw_parse ["k:".toList, "    x".toList] := by
  refine ⟨rfl, rfl, ?_⟩
  intro h
  rw [show amw_parse ["k:".toList, "    # c".toList, "    x".toList] =
        .val (.map [(.str "k".toList, .str "# c\nx\n".toList)]) from rfl,
      show amw_parse ["k:".toList, "    x".toList] =
        .val (.map [(.str "k".toList, .str "x".toList)]) from rfl] at h
  injection h with h1
  injection h1 with h2
  injection h2 with h3 h4
  injection h3 with h5 h6
  injection h6 with h7
  exact absurd h7 (by decide)

/-- Claim C3, counterexample: the document whose single line is `"a\\"` (a
quoted string whose body ends in an escaped backslash) does not parse to the
string `a\`; `find_closing_quote` treats the closing quote as escaped and the
parse fails with "String contains no closing quote". -/
theorem claim3_counterexample :
    amw_parse [[dquote, 'a', bslash, bslash, dquote]] =
      .parseError 1 0 "String contains no closing quote" ∧
    (amw_parse [[dquote, 'a', bslash, bslash, dquote]]).isError = true :=
  ⟨rfl, rfl⟩

/-- Claim C4, counterexample: a value opening with a single quote is not
parsed as a quoted string; it falls through to the literal-string path and the
quotes remain part of the value. -/
theorem claim4_counterexample :
    amw_parse ["'abc'".toList] = .val (.str "'abc'".toList) ∧
    amw_parse ["'abc'".toList] ≠ .val (.str "abc".toList) := by
  refine ⟨rfl, ?_⟩
  intro h
  rw [show amw_parse ["'abc'".toList] = .val (.str "'abc'".toList) from rfl] at h
  injection h with h1
  injection h1 with h2
  exact absurd h2 (by decide)

/-- Claim C4, amended: only the double quote opens a quoted string (the
dispatcher compares the first character against the character `"` twice); a
single-quoted value is parsed as a literal string that keeps its quotes. -/
theorem claim4_theorem :
    amw_parse [[dquote, 'a', 'b', dquote]] = .val (.str ['a', 'b']) ∧
    amw_parse [[squote, 'c', 'd', squote]] = .val (.str [squote, 'c', 'd', squote]) :=
  ⟨rfl, rfl⟩

/-- Claim C5, counterexample: the scalar `truex` (keyword `true` followed by a
letter) is not treated as a literal string; `check_value_end` rejects it with
the parse error "Bad character encountered", so the parse does fail. -/
theorem claim5_counterexample :
    amw_parse ["truex".toList] = .parseError 1 4 "Bad character encountered" ∧
    (amw_parse ["truex".toList]).isError = true :=
  ⟨rfl, rfl⟩

/-- Claim C5, amended: reserved keywords are matched by substring equality at
the start position, and a keyword followed by further letters or digits is
rejected by the end-of-value check with "Bad character encountered" (it is
neither the keyword value nor a literal string); an exact keyword parses to
its value. -/
theorem claim5_theorem :
    amw_parse ["nullable: 1".toList] = .parseError 1 4 "Bad character encountered" ∧
    amw_parse ["falsey".toList] = .parseError 1 5 "Bad character encountered" ∧
    amw_parse ["null".toList] = .val .null ∧
    amw_parse ["true".toList] = .val (.bool true) :=
  ⟨rfl, rfl, rfl, rfl⟩

/-- Claim C7: the overflow check of `parse_unsigned` compares the wrapped
accumulator with its previous value, which misses some overflows.  On the
failing input `20500000000000000000` (which exceeds 2^64) the parser silently
returns the wrapped-around value 2053255926290448384 instead of reporting
"Numeric overflow"; on `99999999999999999999` the wrap is detected and the
error is reported. -/
theorem claim7_theorem :
    amw_parse ["20500000000000000000".toList] = .val (.sint 2053255926290448384) ∧
    (amw_parse ["20500000000000000000".toList]).isError = false ∧
    amw_parse ["99999999999999999999".toList] = .parseError 1 0 "Numeric overflow" :=
  ⟨rfl, rfl, rfl⟩

/-- Claim C8, counterexample: in the number `1_#` the separator is followed by
a non-digit terminator, yet the parse succeeds with value 1 (the separator is
silently consumed and the comment ends the value): no parse error is
raised. -/
theorem claim8_counterexample :
    amw_parse ["1_#".toList] = .val (.sint 1) ∧
    (amw_parse ["1_#".toList]).isError = false :=
  ⟨rfl, rfl⟩

/-- Claim C8, amended: a separator at the start of the magnitude, a duplicated
separator, and a separator at end of line are rejected; a separator followed
by a digit is accepted; but a separator followed by a non-digit terminator
such as `:` silently ends the number before the terminator instead of being
rejected. -/
theorem claim8_theorem :
    amw_parse ["0x_1".toList] =
      .parseError 1 2 "Separator is not allowed in the beginning of number" ∧
    amw_parse ["1__2".toList] = .parseError 1 2 "Duplicate separator in the number" ∧
    amw_parse ["3_".toList] = .parseError 1 2 "Bad number" ∧
    amw_parse ["1_5".toList] = .val (.sint 15) ∧
    amw_parse ["2_:".toList, "    7".toList] = .val (.map [(.sint 2, .sint 7)]) :=
  ⟨rfl, rfl, rfl, rfl, rfl⟩

/-- Claim C10: in a multi-line quoted string with a bad escape, the error does
not carry the 1-based source line number of the offending line.  The source
reads the line number from the `lines` list (a string value) instead of the
`line_numbers` list; the unsigned field of a string value is not a line
number (modelled as 0).  The failing input has its bad escape on source line
2, yet the reported line is 0. -/
theorem claim10_theorem :
    amw_parse [[dquote, 'a'], [' ', bslash, 'x', 'Z', 'Z', dquote]] =
      .parseError 0 2 "Bad hexadecimal value" :=
  rfl

/-- Reading position 0 of a non-empty string yields its head. -/
theorem uw_char_at_cons_zero (a : Char) (l : List Char) : uw_char_at (a :: l) 0 = a := rfl

/-- Right-trimming keeps a non-whitespace head. -/
theorem rtrim_cons (a : Char) (l : List Char) (h : uw_isspace a = false) :
    uw_string_rtrim (a :: l) = a :: uw_string_rtrim l := by
  unfold uw_string_rtrim
  rw [List.reverse_cons, List.dropWhile_append]
  rcases h2 : l.reverse.dropWhile (fun c => uw_isspace c) with _ | ⟨x, xs⟩
  · simp [List.dropWhile, h]
  · simp

/-- Skipping spaces stops immediately on a line whose first character is not a space. -/
theorem skip_spaces_zero (l : List Char) (h : uw_char_at l 0 ≠ ' ') :
    uw_string_skip_spaces l 0 = 0 := by
  unfold uw_string_skip_spaces
  cases l with
  | nil => rfl
  | cons a as =>
      rw [Nat.sub_zero, List.length_cons, skip_spaces_go]
      simp [h]

/-- Evaluation rule of the block-reader loop: a readable, non-empty and sufficiently indented line that is not filtered as a leading comment is returned, clearing `skip_comments`. -/
theorem read_block_line_loop_step (fuel : Nat) (p q : AmwParser) (L : List Char) (ind : Nat)
    (hpos : p.markup.pos < p.markup.lines.length)
    (hL : uw_string_rtrim (p.markup.lines.getD p.markup.pos []) = L)
    (hne : L ≠ [])
    (hind : uw_string_skip_spaces L 0 = ind)
    (hbi : p.block_indent ≤ ind)
    (hsc : p.skip_comments = false ∨ uw_char_at L ind ≠ commentCh)
    (hq : q = { p with
                 markup := { lines := p.markup.lines, pos := p.markup.pos + 1 }
                 current_line := L
                 current_indent := ind
                 line_number := p.markup.pos + 1
                 skip_comments := false }) :
    read_block_line_loop (fuel + 1) p = (.val .status, q) := by
  subst hq
  rw [read_block_line_loop]
  simp only [read_line, hL, hind, if_pos hpos]
  simp only [UwRes.isEof, UwRes.isError, uw_strlen, is_comment_line, uw_char_at,
    Bool.false_eq_true, if_false, List.length_eq_zero, hne, and_false, false_and,
    ite_false, if_true]
  rcases hsc with hsc | hsc
  · simp [hsc, hne, List.length_eq_zero, hbi]
  · by_cases hk : p.skip_comments
    · simp [uw_char_at] at hsc
      simp [hk, hne, List.length_eq_zero, hbi, hsc]
    · simp [hk, hne, List.length_eq_zero, hbi]

/-- Before EOF, `_amw_read_block_line` is its loop. -/
theorem amw_read_block_line_not_eof (fuel : Nat) (p : AmwParser) (h : p.eof = false) :
    amw_read_block_line fuel p = read_block_line_loop fuel p := by
  rw [amw_read_block_line]
  simp [h]

/-- With the EOF flag set inside a block, `_amw_read_block_line` keeps returning END-OF-BLOCK. -/
theorem amw_read_block_line_at_eof (fuel : Nat) (p : AmwParser)
    (h : p.eof = true) (hbl : p.blocklevel ≠ 0) :
    amw_read_block_line fuel p = (.endOfBlock, p) := by
  rw [amw_read_block_line]
  simp [h, hbl]

/-- Evaluation rule of the block-reader loop at source EOF: set the `eof` flag, clear the line and report END-OF-BLOCK. -/
theorem read_block_line_loop_eof (fuel : Nat) (p q : AmwParser)
    (hpos : p.markup.lines.length ≤ p.markup.pos)
    (hq : q = { p with eof := true, current_line := [] }) :
    read_block_line_loop (fuel + 1) p = (.endOfBlock, q) := by
  subst hq
  rw [read_block_line_loop]
  simp only [read_line, if_neg (by omega : ¬ p.markup.pos < p.markup.lines.length)]
  simp [UwRes.isEof]

/-- Evaluation rule of the block-reader loop while `skip_comments` is set: an empty or comment line is skipped. -/
theorem read_block_line_loop_skip (fuel : Nat) (p q : AmwParser) (L : List Char)
    (hpos : p.markup.pos < p.markup.lines.length)
    (hL : uw_string_rtrim (p.markup.lines.getD p.markup.pos []) = L)
    (hskip : p.skip_comments = true)
    (hcl : L = [] ∨ uw_char_at L (uw_string_skip_spaces L 0) = commentCh)
    (hq : q = { p with
                 markup := { lines := p.markup.lines, pos := p.markup.pos + 1 }
                 current_line := L
                 current_indent := uw_string_skip_spaces L 0
                 line_number := p.markup.pos + 1 }) :
    read_block_line_loop (fuel + 1) p = read_block_line_loop fuel q := by
  subst hq
  rw [read_block_line_loop]
  simp only [read_line, hL, if_pos hpos]
  rcases hcl with hcl | hcl
  · simp [UwRes.isEof, UwRes.isError, uw_strlen, hskip, hcl]
  · by_cases hemp : L = []
    · simp [UwRes.isEof, UwRes.isError, uw_strlen, hskip, hemp]
    · have : uw_strlen L ≠ 0 := by simpa [uw_strlen, List.length_eq_zero] using hemp
      simp [UwRes.isEof, UwRes.isError, hskip, this, is_comment_line, hcl]

/-- A scalar document followed by one trailing comment line of arbitrary content still parses to the scalar: the comment is consumed by the value-end check. -/
theorem trailing_comment_one (c : List Char) :
    amw_parse [['8'], '#' :: c] = .val (.sint 8) := by
  have hfuel : docFuel [['8'], '#' :: c] = c.length + 68 := by
    simp [docFuel] <;> omega
  have hcr : amw_parser_create [['8'], '#' :: c] = { markup := { lines := [['8'], '#' :: c], pos := 0 }, current_line := [], current_indent := 0, line_number := 0, block_indent := 0, blocklevel := 1, max_blocklevel := 100, skip_comments := true, eof := false } := rfl
  rw [amw_parse, hfuel, amw_parse_fueled, hcr]
  rw [amw_read_block_line_not_eof _ _ rfl]
  rw [read_block_line_loop_step (c.length + 67) { markup := { lines := [['8'], '#' :: c], pos := 0 }, current_line := [], current_indent := 0, line_number := 0, block_indent := 0, blocklevel := 1, max_blocklevel := 100, skip_comments := true, eof := false }
      { markup := { lines := [['8'], '#' :: c], pos := 1 }, current_line := ['8'], current_indent := 0, line_number := 1, block_indent := 0, blocklevel := 1, max_blocklevel := 100, skip_comments := false, eof := false } ['8'] 0 (by show 0 < 2; decide) rfl (by decide) rfl
      (by show 0 ≤ 0; decide) (Or.inr (by decide)) rfl]
  have hrd : amw_read_block_line (c.length + 66) { markup := { lines := [['8'], '#' :: c], pos := 1 }, current_line := ['8'], current_indent := 0, line_number := 1, block_indent := 0, blocklevel := 1, max_blocklevel := 100, skip_comments := false, eof := false } =
      (.val .status, { markup := { lines := [['8'], '#' :: c], pos := 2 }, current_line := '#' :: uw_string_rtrim c, current_indent := 0, line_number := 2, block_indent := 0, blocklevel := 1, max_blocklevel := 100, skip_comments := false, eof := false }) := by
    rw [amw_read_block_line_not_eof _ _ rfl]
    rw [read_block_line_loop_step (c.length + 65) { markup := { lines := [['8'], '#' :: c], pos := 1 }, current_line := ['8'], current_indent := 0, line_number := 1, block_indent := 0, blocklevel := 1, max_blocklevel := 100, skip_comments := false, eof := false }
        { markup := { lines := [['8'], '#' :: c], pos := 2 }, current_line := '#' :: uw_string_rtrim c, current_indent := 0, line_number := 2, block_indent := 0, blocklevel := 1, max_blocklevel := 100, skip_comments := false, eof := false } ('#' :: uw_string_rtrim c) 0
        (by show 1 < 2; decide) (rtrim_cons '#' c (by decide)) (by simp)
        (skip_spaces_zero _ (by simp [uw_char_at])) (by show 0 ≤ 0; decide)
        (Or.inl rfl) rfl]
  have hpv : parse_value (c.length + 68) false { markup := { lines := [['8'], '#' :: c], pos := 1 }, current_line := ['8'], current_indent := 0, line_number := 1, block_indent := 0, blocklevel := 1, max_blocklevel := 100, skip_comments := false, eof := false } =
      ((.val (.sint 8), none), { markup := { lines := [['8'], '#' :: c], pos := 2 }, current_line := '#' :: uw_string_rtrim c, current_indent := 0, line_number := 2, block_indent := 0, blocklevel := 1, max_blocklevel := 100, skip_comments := false, eof := false }) := by
    rw [parse_value]
    simp +decide [get_start_position, uw_string_skip_spaces, skip_spaces_go, uw_char_at,
      cv, end_of_line, uw_strlen, uw_isspace, uw_substr, uw_substring_eq_cstr,
      amw_parse_number, number_after_radix, number_exp_part, number_done,
      parse_unsigned, parse_unsigned_go, digit_value, skip_digits, skip_digits_go,
      uwSignedMax, check_value_end, UwRes.isError, UwRes.isEndOfBlock, hrd]
  rw [hpv]
  simp only []
  have hrd2 : amw_read_block_line (c.length + 68) { markup := { lines := [['8'], '#' :: c], pos := 2 }, current_line := '#' :: uw_string_rtrim c, current_indent := 0, line_number := 2, block_indent := 0, blocklevel := 1, max_blocklevel := 100, skip_comments := false, eof := false } =
      (.endOfBlock, { markup := { lines := [['8'], '#' :: c], pos := 2 }, current_line := [], current_indent := 0, line_number := 2, block_indent := 0, blocklevel := 1, max_blocklevel := 100, skip_comments := false, eof := true }) := by
    rw [amw_read_block_line_not_eof _ _ rfl]
    rw [read_block_line_loop_eof (c.length + 67) { markup := { lines := [['8'], '#' :: c], pos := 2 }, current_line := '#' :: uw_string_rtrim c, current_indent := 0, line_number := 2, block_indent := 0, blocklevel := 1, max_blocklevel := 100, skip_comments := false, eof := false }
        { markup := { lines := [['8'], '#' :: c], pos := 2 }, current_line := [], current_indent := 0, line_number := 2, block_indent := 0, blocklevel := 1, max_blocklevel := 100, skip_comments := false, eof := true } (by show 2 ≤ 2; decide) rfl]
  rw [hrd2]
  simp [UwRes.isError, UwRes.isEndOfBlock]

/-- A comment line of arbitrary content above the first content line of the document is invisible: `skip_comments` is true at parser creation. -/
theorem leading_comment_skipped (c : List Char) :
    amw_parse ['#' :: c, ['9']] = .val (.sint 9) := by
  have hfuel : docFuel ['#' :: c, ['9']] = c.length + 68 := by
    simp [docFuel] <;> omega
  have hcr : amw_parser_create ['#' :: c, ['9']] = { markup := { lines := ['#' :: c, ['9']], pos := 0 }, current_line := [], current_indent := 0, line_number := 0, block_indent := 0, blocklevel := 1, max_blocklevel := 100, skip_comments := true, eof := false } := rfl
  rw [amw_parse, hfuel, amw_parse_fueled, hcr]
  rw [amw_read_block_line_not_eof _ _ rfl]
  rw [read_block_line_loop_skip (c.length + 67) { markup := { lines := ['#' :: c, ['9']], pos := 0 }, current_line := [], current_indent := 0, line_number := 0, block_indent := 0, blocklevel := 1, max_blocklevel := 100, skip_comments := true, eof := false }
      { markup := { lines := ['#' :: c, ['9']], pos := 1 }, current_line := '#' :: uw_string_rtrim c, current_indent := 0, line_number := 1, block_indent := 0, blocklevel := 1, max_blocklevel := 100, skip_comments := true, eof := false } ('#' :: uw_string_rtrim c)
      (by show 0 < 2; decide) (rtrim_cons '#' c (by decide)) rfl
      (Or.inr (by simp [skip_spaces_zero ('#' :: uw_string_rtrim c) (by simp [uw_char_at]),
        uw_char_at, commentCh]))
      (by simp [skip_spaces_zero ('#' :: uw_string_rtrim c) (by simp [uw_char_at])])]
  rw [read_block_line_loop_step (c.length + 66) { markup := { lines := ['#' :: c, ['9']], pos := 1 }, current_line := '#' :: uw_string_rtrim c, current_indent := 0, line_number := 1, block_indent := 0, blocklevel := 1, max_blocklevel := 100, skip_comments := true, eof := false }
      { markup := { lines := ['#' :: c, ['9']], pos := 2 }, current_line := ['9'], current_indent := 0, line_number := 2, block_indent := 0, blocklevel := 1, max_blocklevel := 100, skip_comments := false, eof := false } ['9'] 0 (by show 1 < 2; decide) rfl (by decide) rfl
      (by show 0 ≤ 0; decide) (Or.inr (by decide)) rfl]
  have hrd : amw_read_block_line (c.length + 66) { markup := { lines := ['#' :: c, ['9']], pos := 2 }, current_line := ['9'], current_indent := 0, line_number := 2, block_indent := 0, blocklevel := 1, max_blocklevel := 100, skip_comments := false, eof := false } =
      (.endOfBlock, { markup := { lines := ['#' :: c, ['9']], pos := 2 }, current_line := [], current_indent := 0, line_number := 2, block_indent := 0, blocklevel := 1, max_blocklevel := 100, skip_comments := false, eof := true }) := by
    rw [amw_read_block_line_not_eof _ _ rfl]
    rw [read_block_line_loop_eof (c.length + 65) { markup := { lines := ['#' :: c, ['9']], pos := 2 }, current_line := ['9'], current_indent := 0, line_number := 2, block_indent := 0, blocklevel := 1, max_blocklevel := 100, skip_comments := false, eof := false }
        { markup := { lines := ['#' :: c, ['9']], pos := 2 }, current_line := [], current_indent := 0, line_number := 2, block_indent := 0, blocklevel := 1, max_blocklevel := 100, skip_comments := false, eof := true } (by show 2 ≤ 2; decide) rfl]
  have hpv : parse_value (c.length + 68) false { markup := { lines := ['#' :: c, ['9']], pos := 2 }, current_line := ['9'], current_indent := 0, line_number := 2, block_indent := 0, blocklevel := 1, max_blocklevel := 100, skip_comments := false, eof := false } =
      ((.val (.sint 9), none), { markup := { lines := ['#' :: c, ['9']], pos := 2 }, current_line := [], current_indent := 0, line_number := 2, block_indent := 0, blocklevel := 1, max_blocklevel := 100, skip_comments := false, eof := true }) := by
    rw [parse_value]
    simp +decide [get_start_position, uw_string_skip_spaces, skip_spaces_go, uw_char_at,
      cv, end_of_line, uw_strlen, uw_isspace, uw_substr, uw_substring_eq_cstr,
      amw_parse_number, number_after_radix, number_exp_part, number_done,
      parse_unsigned, parse_unsigned_go, digit_value, skip_digits, skip_digits_go,
      uwSignedMax, check_value_end, UwRes.isError, UwRes.isEndOfBlock, hrd]
  rw [hpv]
  simp only []
  rw [amw_read_block_line_at_eof (c.length + 68) _ rfl (by show (1 : Nat) ≠ 0; decide)]
  simp [UwRes.isError, UwRes.isEndOfBlock]

set_option maxHeartbeats 3200000 in
/-- Claim C1, amended: comment invariance holds for comment lines that the
block reader filters: a comment strictly below the enclosing block indent
between list items does not change the parse, and a single trailing comment
line of any content after a top-level scalar is consumed silently; but
trailing comments at the top level are block content (the block indent is 0),
and a second trailing comment line triggers "Extra data after parsed value".
-/
theorem claim1_theorem :
    (∀ c : List Char, amw_parse [['8'], '#' :: c] = .val (.sint 8)) ∧
    amw_parse ["n:".toList, "    - 1".toList, "#c".toList, "    - 2".toList] =
      amw_parse ["n:".toList, "    - 1".toList, "    - 2".toList] ∧
    amw_parse ["7".toList, "#a".toList, "#b".toList] =
      .parseError 3 0 "Extra data after parsed value" :=
  ⟨trailing_comment_one, rfl, rfl⟩

/-- Claim C2, amended: `skip_comments` is true only on entry to the first
block (set at parser creation) and is cleared permanently by the first
non-comment, non-empty line of the document.  Hence comment and empty lines
above the document's first content are invisible, of whatever content, while
a comment line above a nested block's first content (at sufficient indent) is
visible to that block's parser and becomes part of its value. -/
theorem claim2_theorem :
    (∀ c : List Char, amw_parse ['#' :: c, ['9']] = .val (.sint 9)) ∧
    amw_parse ["# lead".toList, "".toList, "5".toList] = .val (.sint 5) ∧
    amw_parse ["m:".toList, "    # d".toList, "    y".toList] =
      .val (.map [(.str "m".toList, .str "# d\ny\n".toList)]) :=
  ⟨leading_comment_skipped, rfl, rfl⟩

/-- Accumulating digits over a positive radix never decreases the accumulator. -/
theorem accum_le (r a : Nat) (ds : List Nat) (hr : 1 ≤ r) : a ≤ accum r a ds := by
  induction ds generalizing a with
  | nil => simp [accum]
  | cons d t ih =>
      calc a ≤ a * r + d := by
              have : a ≤ a * r := Nat.le_mul_of_pos_right a (by omega)
              omega
        _ ≤ accum r (a * r + d) t := ih _
        _ = accum r a (d :: t) := by simp [accum]

/-- The digit fold over a reversed digit list computes the base-`r` value below the seed. -/
theorem accum_reverse (r a : Nat) (l : List Nat) :
    accum r a l.reverse = a * r ^ l.length + Nat.ofDigits r l := by
  induction l generalizing a with
  | nil => simp [accum]
  | cons d t ih =>
      have : accum r a ((d :: t).reverse) = accum r (accum r a t.reverse) [d] := by
        simp [accum, List.foldl_append]
      rw [this, ih]
      simp [accum, Nat.ofDigits_cons]
      ring

/-- Folding the canonical big-endian digits of `n` recovers `n`. -/
theorem accum_digitsBE (r n : Nat) (hr : 2 ≤ r) : accum r 0 (digitsBE r n) = n := by
  unfold digitsBE
  split
  · simp [accum]
    omega
  · rw [accum_reverse]
    simp [Nat.ofDigits_digits]

/-- The canonical digit list is never empty. -/
theorem digitsBE_ne_nil (r n : Nat) (hr : 2 ≤ r) : digitsBE r n ≠ [] := by
  unfold digitsBE
  split
  · simp
  · next hn =>
      simp only [ne_eq, List.reverse_eq_nil_iff]
      exact Nat.digits_ne_nil_iff_ne_zero.mpr hn

/-- Every canonical digit is below the radix. -/
theorem digitsBE_lt (r n d : Nat) (hr : 2 ≤ r) (hd : d ∈ digitsBE r n) : d < r := by
  unfold digitsBE at hd
  split at hd
  · simp at hd
    omega
  · rw [List.mem_reverse] at hd
    exact Nat.digits_lt_base hr hd

/-- A digit character is never a number separator. -/
theorem digitChar_ne_sep (d : Nat) (hd : d < 16) :
    ¬ (digitChar d = squote ∨ digitChar d = '_') := by
  interval_cases d <;> decide

/-- The digit characters decode to their values in every supported radix. -/
theorem digit_value_digitChar (r d : Nat) (hr : r = 2 ∨ r = 8 ∨ r = 10 ∨ r = 16)
    (hd : d < r) : digit_value r (digitChar d) = some d := by
  rcases hr with rfl | rfl | rfl | rfl <;> interval_cases d <;> decide

/-- Indexing just past a prefix reads the first appended character. -/
theorem char_at_append_len (σ t : List Char) (x : Char) :
    uw_char_at (σ ++ x :: t) σ.length = x := by
  induction σ with
  | nil => rfl
  | cons a as ih => simpa [uw_char_at, List.getD] using ih

/-- Skipping spaces at or past the end of the line is the identity. -/
theorem skip_spaces_oob (l : List Char) (p : Nat) (h : l.length ≤ p) :
    uw_string_skip_spaces l p = p := by
  unfold uw_string_skip_spaces
  rw [Nat.sub_eq_zero_of_le h]
  rfl

/-- Right-trimming a line without whitespace characters is the identity. -/
theorem rtrim_eq_self (l : List Char) (h : ∀ x ∈ l, uw_isspace x = false) :
    uw_string_rtrim l = l := by
  unfold uw_string_rtrim
  rcases hr : l.reverse with _ | ⟨x, xs⟩
  · simp [List.reverse_eq_nil_iff.mp hr]
  · rw [List.dropWhile_cons_of_neg]
    · rw [← hr, List.reverse_reverse]
    · have hx : x ∈ l := by
        rw [← List.mem_reverse, hr]
        exact List.mem_cons_self x xs
      simp [h x hx]

/-- Main evaluation of the unsigned-number loop on a pure digit suffix: the digits are folded into the accumulator and the loop stops at the end of the line. -/
theorem parse_unsigned_go_digits (r ln e : Nat) (hr : r = 2 ∨ r = 8 ∨ r = 10 ∨ r = 16)
    (ds : List Nat) :
    ∀ (σ : List Char) (acc : Nat) (dseen : Bool),
      ds ≠ [] →
      (∀ d ∈ ds, d < r) →
      accum r acc ds < 2 ^ 64 →
      parse_unsigned_go (σ ++ ds.map digitChar) ln r e
          (ds.length + 1) σ.length acc dseen false =
        (.val (.uint (accum r acc ds)), σ.length + ds.length) := by
  induction ds with
  | nil => intro σ acc dseen hne; exact absurd rfl hne
  | cons d t ih =>
      intro σ acc dseen _ hlt hbound
      have hr2 : 2 ≤ r := by rcases hr with rfl | rfl | rfl | rfl <;> omega
      have hd : d < r := hlt d (List.mem_cons_self d t)
      have hd16 : d < 16 := by rcases hr with rfl | rfl | rfl | rfl <;> omega
      have hstep : acc * r + d ≤ accum r acc (d :: t) := by
        have := accum_le r (acc * r + d) t (by omega)
        simpa [accum] using this
      have hlt64 : acc * r + d < 2 ^ 64 := lt_of_le_of_lt hstep hbound
      have hmod : (acc * r + d) % 2 ^ 64 = acc * r + d := Nat.mod_eq_of_lt hlt64
      have hmono : acc ≤ acc * r + d := by
        have : acc ≤ acc * r := Nat.le_mul_of_pos_right acc (by omega)
        omega
      rw [show (d :: t).length + 1 = (t.length + 1) + 1 from rfl, parse_unsigned_go]
      simp only [List.map_cons]
      rw [char_at_append_len]
      rw [if_neg (digitChar_ne_sep d hd16)]
      rw [digit_value_digitChar r d hr hd]
      simp only []
      rw [hmod, if_neg (by omega : ¬ acc * r + d < acc)]
      cases t with
      | nil =>
          rw [if_pos (by simp [end_of_line])]
          simp [accum, hmod]
      | cons d2 t2 =>
          rw [if_neg (by simp [end_of_line])]
          have := ih (σ ++ [digitChar d]) (acc * r + d) true
            (by simp)
            (fun x hx => hlt x (List.mem_cons_of_mem d hx))
            (by simpa [accum] using hbound)
          simp only [List.append_assoc, List.cons_append, List.nil_append,
            List.length_append, List.length_cons] at this ⊢
          simp only [List.length_nil, Nat.zero_add] at this
          rw [this, Prod.mk.injEq]
          refine ⟨by simp [accum], by omega⟩

/-- Evaluation of `parse_unsigned` on a line ending in the digit rendering of a value below `2 ^ 64`. -/
theorem parse_unsigned_digits (r ln : Nat) (hr : r = 2 ∨ r = 8 ∨ r = 10 ∨ r = 16)
    (ds : List Nat) (σ : List Char) (hne : ds ≠ []) (hlt : ∀ d ∈ ds, d < r)
    (hb : accum r 0 ds < 2 ^ 64) :
    parse_unsigned (σ ++ ds.map digitChar) ln σ.length r =
      (.val (.uint (accum r 0 ds)), σ.length + ds.length) := by
  unfold parse_unsigned
  rw [show (σ ++ ds.map digitChar).length + 1 - σ.length = ds.length + 1 from by
    simp [List.length_append]; omega]
  exact parse_unsigned_go_digits r ln σ.length hr ds σ 0 false hne hlt hb

/-- A digit character is not whitespace. -/
theorem digitChar_not_space (d : Nat) (hd : d < 16) : uw_isspace (digitChar d) = false := by
  interval_cases d <;> decide

/-- Decimal digit characters lie in the ASCII digit range. -/
theorem cv_digitChar_dec (d : Nat) (hd : d < 10) :
    cv '0' ≤ cv (digitChar d) ∧ cv (digitChar d) ≤ cv '9' := by
  interval_cases d <;> decide

/-- A nonzero decimal digit is not the character zero. -/
theorem digitChar_ne_zero_char (d : Nat) (h0 : 0 < d) (hd : d < 10) :
    digitChar d ≠ '0' := by
  interval_cases d <;> decide

/-- A decimal digit character is none of the keyword head letters. -/
theorem digitChar_ne_ntf (d : Nat) (hd : d < 10) :
    digitChar d ≠ 'n' ∧ digitChar d ≠ 't' ∧ digitChar d ≠ 'f' := by
  interval_cases d <;> decide

/-- The decimal rendering of a positive number starts with a nonzero digit. -/
theorem digitsBE_head (n : Nat) (hn : 0 < n) :
    ∃ d0 rest, digitsBE 10 n = d0 :: rest ∧ 0 < d0 ∧ d0 < 10 := by
  have hne := digitsBE_ne_nil 10 n (by omega)
  obtain ⟨d0, rest, hds⟩ := List.exists_cons_of_ne_nil hne
  refine ⟨d0, rest, hds, ?_, digitsBE_lt 10 n d0 (by omega)
    (hds ▸ List.mem_cons_self d0 rest)⟩
  have hdig : Nat.digits 10 n = rest.reverse ++ [d0] := by
    have h1 : (Nat.digits 10 n).reverse = d0 :: rest := by
      rw [← hds]; simp [digitsBE, Nat.pos_iff_ne_zero.mp hn]
    calc Nat.digits 10 n = (Nat.digits 10 n).reverse.reverse := by simp
      _ = rest.reverse ++ [d0] := by rw [h1]; simp
  have hnz := Nat.getLast_digit_ne_zero 10 (Nat.pos_iff_ne_zero.mp hn)
  have h4 : (Nat.digits 10 n).getLast
      (Nat.digits_ne_nil_iff_ne_zero.mpr (Nat.pos_iff_ne_zero.mp hn)) = d0 := by
    simp [hdig, List.getLast_append]
  have h5 : d0 ≠ 0 := h4 ▸ hnz
  omega

/-- A substring comparison from position zero fails when the head characters differ. -/
theorem substring_eq_head_ne (x y : Char) (t s : List Char) (k : Nat) (h : x ≠ y) :
    uw_substring_eq_cstr (x :: t) 0 (k + 1) (y :: s) = false := by
  simp [uw_substring_eq_cstr, uw_substr, List.take_succ_cons, h]

/-- Evaluation of the magnitude part of the number parser on a digit rendering: the digits produce the signed value. -/
theorem number_after_radix_digits (σ : List Char) (ln r n : Nat) (start_pos : Nat)
    (hr : r = 2 ∨ r = 8 ∨ r = 10 ∨ r = 16) (hb : n < 2 ^ 63) :
    number_after_radix (σ ++ (digitsBE r n).map digitChar) ln start_pos 1 r σ.length =
      (.val (.sint (n : Int)), σ.length + (digitsBE r n).length) := by
  have hr2 : 2 ≤ r := by rcases hr with rfl | rfl | rfl | rfl <;> omega
  have hacc : accum r 0 (digitsBE r n) = n := accum_digitsBE r n hr2
  have hpu := parse_unsigned_digits r ln hr (digitsBE r n) σ
    (digitsBE_ne_nil r n hr2)
    (fun d hd => digitsBE_lt r n d hr2 hd)
    (by rw [hacc]; omega)
  rw [hacc] at hpu
  rw [number_after_radix, hpu]
  simp only []
  rw [if_pos (by simp [end_of_line, List.length_append])]
  rw [number_done]
  rw [if_neg (by simp)]
  rw [if_neg (by simp [uwSignedMax]; omega)]
  rw [if_neg (by simp)]

/-- Evaluation of `_amw_parse_number` on a line holding the decimal rendering of a positive number. -/
theorem number_line_dec (p : AmwParser) (n : Nat) (hn : 0 < n) (hb : n < 2 ^ 63)
    (hline : p.current_line = decLine n) :
    amw_parse_number p 0 1 = (.val (.sint (n : Int)), (decLine n).length) := by
  obtain ⟨d0, rest, hds, hd0, hd9⟩ := digitsBE_head n hn
  have hc0 : uw_char_at (decLine n) 0 = digitChar d0 := by
    rw [decLine, hds]; simp [uw_char_at]
  rw [amw_parse_number]
  simp only [hline]
  rw [if_neg (by rw [hc0]; exact digitChar_ne_zero_char d0 hd0 hd9)]
  have htail := number_after_radix_digits [] p.line_number 10 n 0 (by omega) hb
  simp only [List.nil_append, List.length_nil] at htail
  rw [show decLine n = (digitsBE 10 n).map digitChar from rfl, htail]
  simp [decLine]

/-- Evaluation of `_amw_parse_number` on a line holding a `0b`, `0o` or `0x` prefixed rendering. -/
theorem number_line_prefixed (p : AmwParser) (r n : Nat) (spec : Char)
    (hspec : spec = 'b' ∧ r = 2 ∨ spec = 'o' ∧ r = 8 ∨ spec = 'x' ∧ r = 16)
    (hn : 0 < n) (hb : n < 2 ^ 63)
    (hline : p.current_line = '0' :: spec :: (digitsBE r n).map digitChar) :
    amw_parse_number p 0 1 =
      (.val (.sint (n : Int)), (digitsBE r n).length + 2) := by
  have hr : r = 2 ∨ r = 8 ∨ r = 10 ∨ r = 16 := by
    rcases hspec with ⟨_, rfl⟩ | ⟨_, rfl⟩ | ⟨_, rfl⟩ <;> simp
  have hr2 : 2 ≤ r := by rcases hr with rfl | rfl | rfl | rfl <;> omega
  have hpos := List.length_pos.mpr (digitsBE_ne_nil r n hr2)
  have htail := number_after_radix_digits ['0', spec] p.line_number r n 0 hr hb
  simp only [List.length_cons, List.length_nil] at htail
  rw [amw_parse_number]
  simp only [hline]
  rw [if_pos (by rw [uw_char_at_cons_zero])]
  rw [if_neg (by
    simp only [end_of_line, List.length_cons, decide_eq_true_eq]
    omega)]
  simp only [show uw_char_at ('0' :: spec :: (digitsBE r n).map digitChar) (0 + 1) = spec
    from rfl]
  rcases hspec with ⟨rfl, rfl⟩ | ⟨rfl, rfl⟩ | ⟨rfl, rfl⟩
  · rw [if_pos (show ('b' = 'b' ∨ 'b' = 'B') from Or.inl rfl)]
    simp only []
    rw [if_neg (by
      simp only [end_of_line, List.length_cons, List.length_map, decide_eq_true_eq]
      omega)]
    rw [show '0' :: 'b' :: (digitsBE 2 n).map digitChar
          = ['0', 'b'] ++ (digitsBE 2 n).map digitChar from rfl, htail, Prod.mk.injEq]
    exact ⟨rfl, by omega⟩
  · rw [if_neg (show ¬ ('o' = 'b' ∨ 'o' = 'B') from by decide)]
    rw [if_pos (show ('o' = 'o' ∨ 'o' = 'O') from Or.inl rfl)]
    simp only []
    rw [if_neg (by
      simp only [end_of_line, List.length_cons, List.length_map, decide_eq_true_eq]
      omega)]
    rw [show '0' :: 'o' :: (digitsBE 8 n).map digitChar
          = ['0', 'o'] ++ (digitsBE 8 n).map digitChar from rfl, htail, Prod.mk.injEq]
    exact ⟨rfl, by omega⟩
  · rw [if_neg (show ¬ ('x' = 'b' ∨ 'x' = 'B') from by decide)]
    rw [if_neg (show ¬ ('x' = 'o' ∨ 'x' = 'O') from by decide)]
    rw [if_pos (show ('x' = 'x' ∨ 'x' = 'X') from Or.inl rfl)]
    simp only []
    rw [if_neg (by
      simp only [end_of_line, List.length_cons, List.length_map, decide_eq_true_eq]
      omega)]
    rw [show '0' :: 'x' :: (digitsBE 16 n).map digitChar
          = ['0', 'x'] ++ (digitsBE 16 n).map digitChar from rfl, htail, Prod.mk.injEq]
    exact ⟨rfl, by omega⟩

/-- Driver for one-line documents that start with an ASCII digit: the whole parse reduces to the number parser. -/
theorem amw_parse_digit_line (L : List Char) (v : AmwValue)
    (hne : L ≠ [])
    (hrt : uw_string_rtrim L = L)
    (hss : uw_string_skip_spaces L 0 = 0)
    (hdig : cv '0' ≤ cv (uw_char_at L 0) ∧ cv (uw_char_at L 0) ≤ cv '9')
    (hkw1 : uw_substring_eq_cstr L 0 4 ("null".toList) = false)
    (hkw2 : uw_substring_eq_cstr L 0 4 ("true".toList) = false)
    (hkw3 : uw_substring_eq_cstr L 0 5 ("false".toList) = false)
    (hnum : amw_parse_number (oneLineState L) 0 1 = (.val v, L.length)) :
    amw_parse [L] = .val v := by
  have hn1 : uw_char_at L 0 ≠ ':' := fun h => by rw [h] at hdig; exact absurd hdig (by decide)
  have hn2 : uw_char_at L 0 ≠ '-' := fun h => by rw [h] at hdig; exact absurd hdig (by decide)
  have hn3 : uw_char_at L 0 ≠ dquote := fun h => by rw [h] at hdig; exact absurd hdig (by decide)
  have hn4 : uw_char_at L 0 ≠ '+' := fun h => by rw [h] at hdig; exact absurd hdig (by decide)
  have hn5 : uw_char_at L 0 ≠ commentCh := fun h => by rw [h] at hdig; exact absurd hdig (by decide)
  have hfuel : docFuel [L] = L.length + 65 := by simp [docFuel]
  have hcr : amw_parser_create [L] = { markup := { lines := [L], pos := 0 }, current_line := [], current_indent := 0, line_number := 0, block_indent := 0, blocklevel := 1, max_blocklevel := 100, skip_comments := true, eof := false } := rfl
  rw [amw_parse, hfuel, amw_parse_fueled, hcr]
  rw [amw_read_block_line_not_eof _ _ rfl]
  rw [read_block_line_loop_step (L.length + 64) { markup := { lines := [L], pos := 0 }, current_line := [], current_indent := 0, line_number := 0, block_indent := 0, blocklevel := 1, max_blocklevel := 100, skip_comments := true, eof := false }
      (oneLineState L) L 0 (by show 0 < 1; decide) hrt hne hss (by show 0 ≤ 0; decide)
      (Or.inr hn5) rfl]
  have hpv : parse_value (L.length + 65) false (oneLineState L) =
      ((.val v, none), oneLineEofState L) := by
    rw [parse_value]
    have hsp : get_start_position { markup := { lines := [L], pos := 1 }, current_line := L, current_indent := 0, line_number := 1, block_indent := 0, blocklevel := 1, max_blocklevel := 100, skip_comments := false, eof := false } = 0 := by
      simp [get_start_position, hss]
    simp only [oneLineState, hsp]
    rw [if_neg hn1, if_neg (show ¬ uw_char_at L 0 = '-' from hn2)]
    rw [if_neg (show ¬ (uw_char_at L 0 = dquote ∨ uw_char_at L 0 = dquote) from by
      intro h; rcases h with h | h <;> exact hn3 h)]
    rw [show (0 : Nat) + 4 = 4 from rfl, show (0 : Nat) + 5 = 5 from rfl]
    rw [if_neg (show ¬ uw_substring_eq_cstr L 0 4 ("null".toList) = true from by
      rw [hkw1]; decide)]
    rw [if_neg (show ¬ uw_substring_eq_cstr L 0 4 ("true".toList) = true from by
      rw [hkw2]; decide)]
    rw [if_neg (show ¬ uw_substring_eq_cstr L 0 5 ("false".toList) = true from by
      rw [hkw3]; decide)]
    rw [if_neg hn4]
    simp only []
    rw [if_pos hdig]
    rw [show amw_parse_number { markup := { lines := [L], pos := 1 }, current_line := L, current_indent := 0, line_number := 1, block_indent := 0, blocklevel := 1, max_blocklevel := 100, skip_comments := false, eof := false } 0 1 = (.val v, L.length) from hnum]
    simp only []
    rw [check_value_end]
    rw [if_neg (show ¬ (UwRes.val v).isError = true from by simp [UwRes.isError])]
    simp only []
    rw [show uw_string_skip_spaces L L.length = L.length from skip_spaces_oob L L.length le_rfl]
    rw [if_pos (show end_of_line L L.length = true from by simp [end_of_line])]
    rw [if_neg (show ¬ (false = true) from by decide)]
    rw [amw_read_block_line_not_eof _ _ rfl]
    rw [read_block_line_loop_eof (L.length + 62) { markup := { lines := [L], pos := 1 }, current_line := L, current_indent := 0, line_number := 1, block_indent := 0, blocklevel := 1, max_blocklevel := 100, skip_comments := false, eof := false }
        (oneLineEofState L) (by show 1 ≤ 1; decide) rfl]
    simp only []
    simp [UwRes.isEndOfBlock]
  rw [hpv]
  simp only []
  rw [amw_read_block_line_at_eof (L.length + 65) (oneLineEofState L) rfl
      (by show (1 : Nat) ≠ 0; decide)]
  simp [UwRes.isError, UwRes.isEndOfBlock, oneLineState, oneLineEofState]

/-- Keyword substring checks fail when the first characters differ. -/
theorem substring_eq_cstr_head (l s : List Char) (k : Nat) (hl : l ≠ []) (hs : s ≠ [])
    (hk : 0 < k) (h : uw_char_at l 0 ≠ uw_char_at s 0) :
    uw_substring_eq_cstr l 0 k s = false := by
  rcases l with _ | ⟨x, t⟩
  · exact absurd rfl hl
  rcases s with _ | ⟨y, u⟩
  · exact absurd rfl hs
  rcases k with _ | k
  · omega
  exact substring_eq_head_ne x y t u k h

/-- A one-line document holding the decimal rendering of a positive number parses to that number. -/
theorem amw_parse_dec (n : Nat) (hn : 0 < n) (hb : n < 2 ^ 63) :
    amw_parse [decLine n] = .val (.sint (n : Int)) := by
  obtain ⟨d0, rest, hds, hd0, hd9⟩ := digitsBE_head n hn
  have hc0 : uw_char_at (decLine n) 0 = digitChar d0 := by
    rw [decLine, hds]; simp [uw_char_at]
  have hne : decLine n ≠ [] := by
    simp [decLine, digitsBE_ne_nil 10 n (by omega)]
  refine amw_parse_digit_line (decLine n) (.sint (n : Int)) hne
    (rtrim_eq_self _ ?_) (skip_spaces_zero _ ?_) ?_ ?_ ?_ ?_
    (number_line_dec (oneLineState (decLine n)) n hn hb rfl)
  · intro x hx
    obtain ⟨d, hd, rfl⟩ := List.mem_map.mp hx
    exact digitChar_not_space d (by have := digitsBE_lt 10 n d (by omega) hd; omega)
  · rw [hc0]
    have := digitChar_not_space d0 (by omega)
    intro hsp
    rw [hsp] at this
    exact absurd this (by decide)
  · rw [hc0]
    exact cv_digitChar_dec d0 hd9
  · exact substring_eq_cstr_head _ _ 4 hne (by decide) (by decide)
      (by rw [hc0]; exact (digitChar_ne_ntf d0 hd9).1)
  · exact substring_eq_cstr_head _ _ 4 hne (by decide) (by decide)
      (by rw [hc0]; exact (digitChar_ne_ntf d0 hd9).2.1)
  · exact substring_eq_cstr_head _ _ 5 hne (by decide) (by decide)
      (by rw [hc0]; exact (digitChar_ne_ntf d0 hd9).2.2)

/-- A one-line document holding a radix-prefixed rendering of a positive number parses to that number. -/
theorem amw_parse_radix_pref (n r : Nat) (spec : Char)
    (hspec : spec = 'b' ∧ r = 2 ∨ spec = 'o' ∧ r = 8 ∨ spec = 'x' ∧ r = 16)
    (hspace : uw_isspace spec = false)
    (hn : 0 < n) (hb : n < 2 ^ 63) :
    amw_parse ['0' :: spec :: (digitsBE r n).map digitChar] = .val (.sint (n : Int)) := by
  have hr2 : 2 ≤ r := by
    rcases hspec with ⟨_, rfl⟩ | ⟨_, rfl⟩ | ⟨_, rfl⟩ <;> omega
  refine amw_parse_digit_line ('0' :: spec :: (digitsBE r n).map digitChar)
    (.sint (n : Int)) (by simp)
    (rtrim_eq_self _ ?_) (skip_spaces_zero _ (by show ('0' : Char) ≠ ' '; decide))
    (by show cv '0' ≤ cv '0' ∧ cv '0' ≤ cv '9'; decide) ?_ ?_ ?_ ?_
  · intro x hx
    simp only [List.mem_cons] at hx
    rcases hx with rfl | rfl | hx
    · decide
    · exact hspace
    · obtain ⟨d, hd, rfl⟩ := List.mem_map.mp hx
      exact digitChar_not_space d (by have := digitsBE_lt r n d hr2 hd; omega)
  · exact substring_eq_cstr_head _ _ 4 (by simp) (by decide) (by decide)
      (by show ('0' : Char) ≠ 'n'; decide)
  · exact substring_eq_cstr_head _ _ 4 (by simp) (by decide) (by decide)
      (by show ('0' : Char) ≠ 't'; decide)
  · exact substring_eq_cstr_head _ _ 5 (by simp) (by decide) (by decide)
      (by show ('0' : Char) ≠ 'f'; decide)
  · rw [number_line_prefixed (oneLineState ('0' :: spec :: (digitsBE r n).map digitChar))
      r n spec hspec hn hb rfl, Prod.mk.injEq]
    exact ⟨rfl, by simp [List.length_map]⟩

/-- Claim C9: for every integer `n` in `0..2 ^ 31`, the documents holding `n` in decimal, `0b` binary, `0o` octal and `0x` hexadecimal all parse successfully to the same integer value `n`. -/
theorem claim9_theorem (n : Nat) (h : n ≤ 2 ^ 31) :
    amw_parse [decLine n] = .val (.sint (n : Int)) ∧
    amw_parse [binLine n] = .val (.sint (n : Int)) ∧
    amw_parse [octLine n] = .val (.sint (n : Int)) ∧
    amw_parse [hexLine n] = .val (.sint (n : Int)) := by
  rcases Nat.eq_zero_or_pos n with rfl | hn
  · exact ⟨rfl, rfl, rfl, rfl⟩
  have hb : n < 2 ^ 63 := by
    have : (2 : Nat) ^ 31 < 2 ^ 63 := by norm_num
    omega
  exact ⟨amw_parse_dec n hn hb,
    amw_parse_radix_pref n 2 'b' (Or.inl ⟨rfl, rfl⟩) (by decide) hn hb,
    amw_parse_radix_pref n 8 'o' (Or.inr (Or.inl ⟨rfl, rfl⟩)) (by decide) hn hb,
    amw_parse_radix_pref n 16 'x' (Or.inr (Or.inr ⟨rfl, rfl⟩)) (by decide) hn hb⟩

/-- Claim C9, witness: the four renderings of 2022 all parse to 2022. -/
theorem claim9_witness :
    (2022 : Nat) ≤ 2 ^ 31 ∧
      (amw_parse [decLine 2022] = .val (.sint (2022 : Int)) ∧
       amw_parse [binLine 2022] = .val (.sint (2022 : Int)) ∧
       amw_parse [octLine 2022] = .val (.sint (2022 : Int)) ∧
       amw_parse [hexLine 2022] = .val (.sint (2022 : Int))) :=
  ⟨by decide, claim9_theorem 2022 (by decide)⟩

/-- Decomposition of a valid body at its first double quote: either the body is quote-free, or the first quote is the second character of an escaped-quote unit. -/
theorem valid_split (s : List Char) (hv : validBody s = true) :
    (∀ x ∈ s, x ≠ dquote) ∨
    ∃ u s2, s = u ++ bslash :: dquote :: s2 ∧ (∀ x ∈ u, x ≠ dquote) ∧
      validBody s2 = true := by
  match s with
  | [] => exact Or.inl (by simp)
  | [c] =>
      simp only [validBody, Bool.and_eq_true, bne_iff_ne, decide_eq_true_eq] at hv
      exact Or.inl (by simp [hv.1.1.2])
  | c :: e :: rest =>
      rw [validBody] at hv
      by_cases hc : c = bslash
      · rw [if_pos hc] at hv
        simp only [Bool.and_eq_true] at hv
        by_cases he : e = dquote
        · exact Or.inr ⟨[], rest, by simp [hc, he], by simp, hv.2⟩
        · rcases valid_split rest hv.2 with hq | ⟨u, s2, hsplit, hu, hv2⟩
          · refine Or.inl ?_
            intro x hx
            simp only [List.mem_cons] at hx
            rcases hx with rfl | rfl | hx
            · rw [hc]; decide
            · exact he
            · exact hq x hx
          · exact Or.inr ⟨c :: e :: u, s2, by simp [hsplit],
              by intro x hx; simp only [List.mem_cons] at hx
                 rcases hx with rfl | rfl | hx
                 · rw [hc]; decide
                 · exact he
                 · exact hu x hx, hv2⟩
      · rw [if_neg hc] at hv
        simp only [Bool.and_eq_true, bne_iff_ne, decide_eq_true_eq] at hv
        rcases valid_split (e :: rest) hv.2 with hq | ⟨u, s2, hsplit, hu, hv2⟩
        · refine Or.inl ?_
          intro x hx
          simp only [List.mem_cons] at hx
          rcases hx with rfl | hx
          · exact hv.1.1.1
          · exact hq x (by simpa using hx)
        · exact Or.inr ⟨c :: u, s2, by simp [hsplit],
            by intro x hx; simp only [List.mem_cons] at hx
               rcases hx with rfl | hx
               · exact hv.1.1.1
               · exact hu x hx, hv2⟩

/-- The character-search loop skips a block free of the sought character and stops on its first occurrence. -/
theorem strchr_go_append (c : Char) (u : List Char) :
    ∀ (σ τ : List Char) (m : Nat), (∀ x ∈ u, x ≠ c) →
    strchr_go (m + u.length + 1) (σ ++ u ++ c :: τ) c σ.length =
      some (σ.length + u.length) := by
  induction u with
  | nil =>
      intro σ τ m _
      rw [show m + [].length + 1 = m + 1 from rfl, strchr_go]
      rw [if_pos (by simp)]
      rw [if_pos (by
        rw [show σ ++ [] ++ c :: τ = σ ++ c :: τ from by simp]
        exact char_at_append_len σ τ c)]
      simp
  | cons x u' ih =>
      intro σ τ m hu
      rw [show m + (x :: u').length + 1 = (m + u'.length + 1) + 1 from by
          simp only [List.length_cons]; omega,
        strchr_go]
      rw [if_pos (by simp only [List.length_append, List.length_cons]; omega)]
      rw [if_neg (by
        rw [show σ ++ (x :: u') ++ c :: τ = σ ++ x :: (u' ++ c :: τ) from by simp,
          char_at_append_len]
        exact hu x (List.mem_cons_self x u'))]
      have := ih (σ ++ [x]) τ m (fun y hy => hu y (List.mem_cons_of_mem x hy))
      rw [show (σ ++ [x]) ++ u' ++ c :: τ = σ ++ (x :: u') ++ c :: τ from by simp,
        show (σ ++ [x]).length = σ.length + 1 from by simp] at this
      rw [this]
      simp
      omega

/-- Evaluation of `uw_strchr` on a line split as prefix, sought-character-free block and first occurrence. -/
theorem uw_strchr_append (c : Char) (σ u τ : List Char) (hu : ∀ x ∈ u, x ≠ c) :
    uw_strchr (σ ++ u ++ c :: τ) c σ.length = some (σ.length + u.length) := by
  unfold uw_strchr
  rw [show (σ ++ u ++ c :: τ).length + 1 - σ.length = (τ.length + 1) + u.length + 1 from by
    simp [List.length_append]; omega]
  exact strchr_go_append c u σ τ (τ.length + 1) hu

/-- Indexing the last position of a prefix reads its last character. -/
theorem getLast_char_at (ρ τ : List Char) (a : Char) (h : ρ.getLast? = some a) :
    uw_char_at (ρ ++ τ) (ρ.length - 1) = a := by
  rcases List.eq_nil_or_concat ρ with rfl | ⟨ρ2, b, hcat⟩
  · simp at h
  · rw [List.concat_eq_append] at hcat
    subst hcat
    rw [List.getLast?_concat] at h
    injection h with h
    subst h
    rw [show (ρ2 ++ [b]) ++ τ = ρ2 ++ b :: τ from by simp,
      show (ρ2 ++ [b]).length - 1 = ρ2.length from by simp]
    exact char_at_append_len ρ2 τ b

/-- Main evaluation of the closing-quote search on a valid body: every quote inside the body is directly preceded by a backslash and is skipped, and the final quote is accepted because the body does not end in a backslash. -/
theorem fcq_go_valid : ∀ (fuel : Nat) (s σ : List Char),
    validBody s = true →
    s.getLast? ≠ some bslash →
    σ.getLast? ≠ some bslash →
    s.length + 1 ≤ fuel →
    find_closing_quote_go (σ ++ s ++ [dquote]) dquote fuel σ.length =
      some (σ.length + s.length + 1) := by
  intro fuel
  induction fuel with
  | zero => intro s σ _ _ _ hf; omega
  | succ n ih =>
      intro s σ hv hs hσ hf
      rw [find_closing_quote_go]
      rcases valid_split s hv with hq | ⟨u, s2, rfl, hu, hv2⟩
      · have hρb : (σ ++ s).getLast? ≠ some bslash := by
          rcases List.eq_nil_or_concat s with rfl | ⟨s3, b, hs3⟩
          · simpa using hσ
          · rw [List.concat_eq_append] at hs3
            subst hs3
            rw [List.getLast?_concat] at hs
            rw [show σ ++ (s3 ++ [b]) = (σ ++ s3) ++ [b] from by simp,
              List.getLast?_concat]
            exact hs
        have hst := uw_strchr_append dquote σ s [] hq
        rw [show σ ++ s ++ dquote :: [] = σ ++ s ++ [dquote] from rfl] at hst
        rw [hst]
        simp only []
        rw [if_neg (by
          by_cases hρn : σ ++ s = []
          · intro hcon
            apply hcon.1
            have := congrArg List.length hρn
            simpa [List.length_append] using this
          · obtain ⟨ρ2, a, hcat⟩ := (List.eq_nil_or_concat (σ ++ s)).resolve_left hρn
            intro hcon
            have hρ : (σ ++ s).getLast? = some a := by
              rw [List.concat_eq_append] at hcat
              rw [hcat]; exact List.getLast?_concat _
            have ha : a ≠ bslash := fun h => hρb (by rw [hρ, h])
            have hch : uw_char_at ((σ ++ s) ++ [dquote]) ((σ ++ s).length - 1) = a :=
              getLast_char_at _ _ a hρ
            have hbs := hcon.2
            rw [show σ.length + s.length - 1 = (σ ++ s).length - 1 from by
              simp [List.length_append]] at hbs
            rw [hbs] at hch
            exact ha hch.symm)]
      · have hs2 : s2.getLast? ≠ some bslash := by
          rcases List.eq_nil_or_concat s2 with rfl | ⟨s3, b, hs3⟩
          · simp
          · rw [List.concat_eq_append] at hs3
            subst hs3
            rw [List.getLast?_concat]
            rw [show u ++ bslash :: dquote :: (s3 ++ [b])
                = (u ++ bslash :: dquote :: s3) ++ [b] from by simp,
              List.getLast?_concat] at hs
            exact hs
        have hσ2 : (σ ++ u ++ [bslash, dquote]).getLast? ≠ some bslash := by
          rw [show σ ++ u ++ [bslash, dquote]
              = (σ ++ u ++ [bslash]) ++ [dquote] from by simp,
            List.getLast?_concat]
          decide
        have hst := uw_strchr_append dquote σ (u ++ [bslash]) (s2 ++ [dquote])
          (by
            intro x hx
            rcases List.mem_append.mp hx with hx | hx
            · exact hu x hx
            · simp at hx
              rw [hx]; decide)
        rw [show σ ++ (u ++ [bslash]) ++ dquote :: (s2 ++ [dquote])
            = σ ++ (u ++ bslash :: dquote :: s2) ++ [dquote] from by simp] at hst
        rw [hst]
        simp only []
        rw [if_pos (by
          constructor
          · simp [List.length_append]
          · rw [show σ.length + (u ++ [bslash]).length - 1 = (σ ++ u).length from by
              simp [List.length_append],
              show σ ++ (u ++ bslash :: dquote :: s2) ++ [dquote]
                = (σ ++ u) ++ bslash :: (dquote :: s2 ++ [dquote]) from by simp]
            exact char_at_append_len _ _ _)]
        rw [show σ ++ (u ++ bslash :: dquote :: s2) ++ [dquote]
            = (σ ++ u ++ [bslash, dquote]) ++ s2 ++ [dquote] from by simp,
          show σ.length + (u ++ [bslash]).length + 1 = (σ ++ u ++ [bslash, dquote]).length
            from by simp [List.length_append]; omega]
        rw [ih s2 (σ ++ u ++ [bslash, dquote]) hv2 hs2 hσ2 (by
          simp only [List.length_append, List.length_cons] at hf ⊢
          omega)]
        simp [List.length_append]
        omega

/-- Evaluation of `find_closing_quote` on a one-line quoted string with a valid body not ending in a backslash. -/
theorem fcq_valid (s : List Char) (hv : validBody s = true)
    (hl : s.getLast? ≠ some bslash) :
    find_closing_quote (dquote :: s ++ [dquote]) dquote 1 = some (s.length + 2) := by
  unfold find_closing_quote
  rw [show (dquote :: s ++ [dquote]).length + 1 - 1 = s.length + 2 from by simp]
  have h := fcq_go_valid (s.length + 2) s [dquote] hv hl (by decide) (by omega)
  rw [show [dquote] ++ s ++ [dquote] = dquote :: s ++ [dquote] from by simp,
    show ([dquote] : List Char).length = 1 from rfl] at h
  rw [h]
  simp only [Option.some.injEq]
  omega

/-- Main evaluation of the unescape loop on a valid body: plain characters are copied, escape pairs are decoded, and the loop stops at the closing quote. -/
theorem unescape_go_valid (s : List Char) : ∀ (fuel : Nat) (σ acc τ : List Char) (ln : Nat),
    validBody s = true → s.length + 1 ≤ fuel →
    unescape_go (σ ++ s ++ dquote :: τ) ln dquote fuel σ.length acc =
      (.val (.str (acc ++ decodeEscapes s)), σ.length + s.length) := by
  match s with
  | [] =>
      intro fuel σ acc τ ln hv hf
      rcases fuel with _ | n
      · omega
      rw [show σ ++ [] ++ dquote :: τ = σ ++ dquote :: τ from by simp]
      rw [unescape_go]
      rw [if_neg (by
        simp only [end_of_line, List.length_append, List.length_cons, decide_eq_true_eq]
        omega)]
      rw [char_at_append_len σ τ dquote]
      rw [if_pos rfl]
      simp [decodeEscapes]
  | [c] =>
      intro fuel σ acc τ ln hv hf
      rcases fuel with _ | n
      · omega
      simp only [validBody, Bool.and_eq_true, bne_iff_ne, decide_eq_true_eq] at hv
      rw [show σ ++ [c] ++ dquote :: τ = σ ++ c :: (dquote :: τ) from by simp]
      rw [unescape_go]
      rw [if_neg (by
        simp only [end_of_line, List.length_append, List.length_cons, decide_eq_true_eq]
        omega)]
      rw [char_at_append_len σ (dquote :: τ) c]
      rw [if_neg hv.1.1.2, if_pos hv.1.1.1]
      have h := unescape_go_valid [] n (σ ++ [c]) (acc ++ [c]) τ ln rfl (by
        simp only [List.length_cons, List.length_nil] at hf ⊢
        omega)
      rw [show (σ ++ [c]) ++ [] ++ dquote :: τ = σ ++ c :: (dquote :: τ) from by simp,
        show (σ ++ [c]).length = σ.length + 1 from by simp] at h
      rw [h, Prod.mk.injEq]
      refine ⟨by simp [decodeEscapes], by simp only [List.length_cons, List.length_nil] <;> omega⟩
  | c :: e :: rest =>
      intro fuel σ acc τ ln hv hf
      rcases fuel with _ | n
      · omega
      rw [validBody] at hv
      by_cases hc : c = bslash
      · subst hc
        rw [if_pos rfl, Bool.and_eq_true] at hv
        rw [show σ ++ (bslash :: e :: rest) ++ dquote :: τ
            = σ ++ bslash :: (e :: (rest ++ dquote :: τ)) from by simp]
        rw [unescape_go]
        rw [if_neg (by
          simp only [end_of_line, List.length_append, List.length_cons, decide_eq_true_eq]
          omega)]
        rw [char_at_append_len σ _ bslash]
        rw [if_neg (by decide), if_neg (show ¬ bslash ≠ bslash from by simp)]
        rw [if_neg (by
          simp only [end_of_line, List.length_append, List.length_cons, decide_eq_true_eq]
          omega)]
        have hc2 : uw_char_at (σ ++ bslash :: (e :: (rest ++ dquote :: τ))) (σ.length + 1)
            = e := by
          have h := char_at_append_len (σ ++ [bslash]) (rest ++ dquote :: τ) e
          rw [show (σ ++ [bslash]) ++ e :: (rest ++ dquote :: τ)
              = σ ++ bslash :: (e :: (rest ++ dquote :: τ)) from by simp,
            show (σ ++ [bslash]).length = σ.length + 1 from by simp] at h
          exact h
        rw [hc2]
        have hrec : ∀ acc2 : List Char,
            unescape_go (σ ++ bslash :: (e :: (rest ++ dquote :: τ))) ln dquote n
              (σ.length + 1 + 1) acc2 =
            (.val (.str (acc2 ++ decodeEscapes rest)), σ.length + 1 + 1 + rest.length) := by
          intro acc2
          have h := unescape_go_valid rest n (σ ++ [bslash, e]) acc2 τ ln hv.2 (by
            simp only [List.length_cons] at hf
            omega)
          rw [show (σ ++ [bslash, e]) ++ rest ++ dquote :: τ
              = σ ++ bslash :: (e :: (rest ++ dquote :: τ)) from by simp,
            show (σ ++ [bslash, e]).length = σ.length + 1 + 1 from by simp] at h
          exact h
        have hdec : decodeEscapes (bslash :: e :: rest)
            = ((escCode e).getD e) :: decodeEscapes rest := by
          rw [decodeEscapes, if_pos rfl]
        rw [escCode] at hv
        rcases hv with ⟨hesc, _⟩
        split_ifs at hesc with h1 h2 h3 h4 h5 h6 h7 h8
        · rw [if_pos h1, hrec (acc ++ [e])]
          rw [hdec, escCode, if_pos h1]
          simp <;> omega
        · rw [if_neg h1, if_pos h2, hrec (acc ++ [Char.ofNat 7])]
          rw [hdec, escCode, if_neg h1, if_pos h2]
          simp <;> omega
        · rw [if_neg h1, if_neg h2, if_pos h3, hrec (acc ++ [Char.ofNat 8])]
          rw [hdec, escCode, if_neg h1, if_neg h2, if_pos h3]
          simp <;> omega
        · rw [if_neg h1, if_neg h2, if_neg h3, if_pos h4, hrec (acc ++ [Char.ofNat 12])]
          rw [hdec, escCode, if_neg h1, if_neg h2, if_neg h3, if_pos h4]
          simp <;> omega
        · rw [if_neg h1, if_neg h2, if_neg h3, if_neg h4, if_pos h5, hrec (acc ++ [Char.ofNat 10])]
          rw [hdec, escCode, if_neg h1, if_neg h2, if_neg h3, if_neg h4, if_pos h5]
          simp <;> omega
        · rw [if_neg h1, if_neg h2, if_neg h3, if_neg h4, if_neg h5, if_pos h6,
            hrec (acc ++ [Char.ofNat 13])]
          rw [hdec, escCode, if_neg h1, if_neg h2, if_neg h3, if_neg h4, if_neg h5,
            if_pos h6]
          simp <;> omega
        · rw [if_neg h1, if_neg h2, if_neg h3, if_neg h4, if_neg h5, if_neg h6,
            if_pos h7, hrec (acc ++ [Char.ofNat 9])]
          rw [hdec, escCode, if_neg h1, if_neg h2, if_neg h3, if_neg h4, if_neg h5,
            if_neg h6, if_pos h7]
          simp <;> omega
        · rw [if_neg h1, if_neg h2, if_neg h3, if_neg h4, if_neg h5, if_neg h6,
            if_neg h7, if_pos h8, hrec (acc ++ [Char.ofNat 11])]
          rw [hdec, escCode, if_neg h1, if_neg h2, if_neg h3, if_neg h4, if_neg h5,
            if_neg h6, if_neg h7, if_pos h8]
          simp <;> omega
        · simp at hesc
      · rw [if_neg hc, Bool.and_eq_true] at hv
        rcases hv with ⟨hcs, hv2⟩
        simp only [Bool.and_eq_true, bne_iff_ne, decide_eq_true_eq] at hcs
        rw [show σ ++ (c :: e :: rest) ++ dquote :: τ
            = σ ++ c :: (e :: rest ++ dquote :: τ) from by simp]
        rw [unescape_go]
        rw [if_neg (by
          simp only [end_of_line, List.length_append, List.length_cons, decide_eq_true_eq]
          omega)]
        rw [char_at_append_len σ _ c]
        rw [if_neg hcs.1.1, if_pos hc]
        have hrec := unescape_go_valid (e :: rest) n (σ ++ [c]) (acc ++ [c]) τ ln hv2 (by
          simp only [List.length_cons] at hf ⊢
          omega)
        rw [show (σ ++ [c]) ++ (e :: rest) ++ dquote :: τ
            = σ ++ c :: (e :: rest ++ dquote :: τ) from by simp,
          show (σ ++ [c]).length = σ.length + 1 from by simp] at hrec
        rw [hrec, Prod.mk.injEq]
        constructor
        · rw [show decodeEscapes (c :: e :: rest) = c :: decodeEscapes (e :: rest) from by
            rw [decodeEscapes, if_neg hc]]
          simp
        · simp only [List.length_cons]
          omega

/-- Evaluation of `_amw_unescape_line` on a one-line quoted string with a valid body. -/
theorem unescape_valid (s : List Char) (ln : Nat) (hv : validBody s = true) :
    amw_unescape_line (dquote :: s ++ [dquote]) ln dquote 1 =
      (.val (.str (decodeEscapes s)), s.length + 1) := by
  unfold amw_unescape_line
  rw [if_neg (by simp only [List.length_cons, List.length_append]; omega)]
  rw [show (dquote :: s ++ [dquote]).length + 1 - 1 = s.length + 2 from by simp]
  have h := unescape_go_valid s (s.length + 2) [dquote] [] [] ln hv (by omega)
  rw [show [dquote] ++ s ++ dquote :: [] = dquote :: s ++ [dquote] from by simp,
    show ([dquote] : List Char).length = 1 from rfl] at h
  rw [h, Prod.mk.injEq]
  exact ⟨by simp, by omega⟩

/-- Right-trimming a line whose last character is not whitespace is the identity. -/
theorem rtrim_eq_self_of_last (l : List Char) (a : Char) (h : l.getLast? = some a)
    (ha : uw_isspace a = false) : uw_string_rtrim l = l := by
  unfold uw_string_rtrim
  rcases hr : l.reverse with _ | ⟨x, xs⟩
  · simp [List.reverse_eq_nil_iff.mp hr]
  · have hx : x = a := by
      have h1 : l.reverse.head? = l.getLast? := List.head?_reverse l
      rw [hr, h] at h1
      injection h1
    rw [List.dropWhile_cons_of_neg]
    · rw [← hr, List.reverse_reverse]
    · rw [hx]
      simp [ha]

/-- Driver for one-line documents that start with a double quote: the whole parse reduces to `parse_quoted_string`. -/
theorem amw_parse_quoted_line (s : List Char) (v : AmwValue)
    (hrt : uw_string_rtrim (dquote :: (s ++ [dquote])) = dquote :: (s ++ [dquote]))
    (hq : parse_quoted_string ((dquote :: (s ++ [dquote])).length + 64)
        (oneLineState (dquote :: (s ++ [dquote]))) 0 =
        ((.val v, (dquote :: (s ++ [dquote])).length),
          oneLineState (dquote :: (s ++ [dquote])))) :
    amw_parse [dquote :: (s ++ [dquote])] = .val v := by
  have hfuel : docFuel [dquote :: (s ++ [dquote])] =
      (dquote :: (s ++ [dquote])).length + 65 := by
    simp [docFuel]
  have hcr : amw_parser_create [dquote :: (s ++ [dquote])] = { markup := { lines := [dquote :: (s ++ [dquote])], pos := 0 }, current_line := [], current_indent := 0, line_number := 0, block_indent := 0, blocklevel := 1, max_blocklevel := 100, skip_comments := true, eof := false } := rfl
  rw [amw_parse, hfuel, amw_parse_fueled, hcr]
  rw [amw_read_block_line_not_eof _ _ rfl]
  rw [read_block_line_loop_step ((dquote :: (s ++ [dquote])).length + 64) { markup := { lines := [dquote :: (s ++ [dquote])], pos := 0 }, current_line := [], current_indent := 0, line_number := 0, block_indent := 0, blocklevel := 1, max_blocklevel := 100, skip_comments := true, eof := false }
      (oneLineState (dquote :: (s ++ [dquote]))) (dquote :: (s ++ [dquote])) 0
      (by show 0 < 1; decide) hrt (by simp)
      (skip_spaces_zero (dquote :: (s ++ [dquote]))
        (by show (dquote : Char) ≠ ' '; decide))
      (by show 0 ≤ 0; decide)
      (Or.inr (by show (dquote : Char) ≠ commentCh; decide)) rfl]
  have hpv : parse_value ((dquote :: (s ++ [dquote])).length + 65) false
      (oneLineState (dquote :: (s ++ [dquote]))) =
      ((.val v, none), oneLineEofState (dquote :: (s ++ [dquote]))) := by
    rw [parse_value]
    have hsp : get_start_position { markup := { lines := [dquote :: (s ++ [dquote])], pos := 1 }, current_line := dquote :: (s ++ [dquote]), current_indent := 0, line_number := 1, block_indent := 0, blocklevel := 1, max_blocklevel := 100, skip_comments := false, eof := false } = 0 := by
      simp [get_start_position,
        skip_spaces_zero (dquote :: (s ++ [dquote]))
          (by show (dquote : Char) ≠ ' '; decide)]
    simp only [oneLineState, hsp]
    rw [show uw_char_at (dquote :: (s ++ [dquote])) 0 = dquote from rfl]
    rw [if_neg (show ¬ (dquote : Char) = ':' from by decide)]
    rw [if_neg (show ¬ (dquote : Char) = '-' from by decide)]
    rw [if_pos (Or.inl (show (dquote : Char) = dquote from rfl))]
    rw [show parse_quoted_string ((dquote :: (s ++ [dquote])).length + 64) { markup := { lines := [dquote :: (s ++ [dquote])], pos := 1 }, current_line := dquote :: (s ++ [dquote]), current_indent := 0, line_number := 1, block_indent := 0, blocklevel := 1, max_blocklevel := 100, skip_comments := false, eof := false } 0 = ((.val v, (dquote :: (s ++ [dquote])).length), { markup := { lines := [dquote :: (s ++ [dquote])], pos := 1 }, current_line := dquote :: (s ++ [dquote]), current_indent := 0, line_number := 1, block_indent := 0, blocklevel := 1, max_blocklevel := 100, skip_comments := false, eof := false }) from hq]
    simp only []
    rw [if_neg (show ¬ (UwRes.val v).isError = true from by simp [UwRes.isError])]
    rw [if_pos trivial]
    rw [check_value_end]
    rw [if_neg (show ¬ (UwRes.val v).isError = true from by simp [UwRes.isError])]
    simp only []
    rw [show uw_string_skip_spaces (dquote :: (s ++ [dquote]))
        (dquote :: (s ++ [dquote])).length = (dquote :: (s ++ [dquote])).length from
      skip_spaces_oob _ _ le_rfl]
    rw [if_pos (show end_of_line (dquote :: (s ++ [dquote]))
        (dquote :: (s ++ [dquote])).length = true from by simp [end_of_line])]
    rw [if_neg (show ¬ (false = true) from by decide)]
    rw [amw_read_block_line_not_eof _ _ rfl]
    rw [read_block_line_loop_eof ((dquote :: (s ++ [dquote])).length + 62) { markup := { lines := [dquote :: (s ++ [dquote])], pos := 1 }, current_line := dquote :: (s ++ [dquote]), current_indent := 0, line_number := 1, block_indent := 0, blocklevel := 1, max_blocklevel := 100, skip_comments := false, eof := false }
        (oneLineEofState (dquote :: (s ++ [dquote]))) (by show 1 ≤ 1; decide) rfl]
    simp only []
    simp [UwRes.isEndOfBlock]
  rw [hpv]
  simp only []
  rw [amw_read_block_line_at_eof ((dquote :: (s ++ [dquote])).length + 65)
      (oneLineEofState (dquote :: (s ++ [dquote]))) rfl
      (by show (1 : Nat) ≠ 0; decide)]
  simp [UwRes.isError, UwRes.isEndOfBlock, oneLineState, oneLineEofState]

/-- Claim C3, amended: for every ASCII body `s` with no line feed and no unescaped double quote or backslash, whose escapes are recognized single-character escapes, and which does not end in a backslash character, the one-line document quoting `s` parses to the string obtained by decoding the escapes of `s`. Bodies ending in a backslash (such as an escaped backslash at the end) are rejected by the closing-quote search. -/
theorem claim3_theorem (s : List Char) (hv : validBody s = true)
    (hl : s.getLast? ≠ some bslash) :
    amw_parse [dquote :: (s ++ [dquote])] = .val (.str (decodeEscapes s)) := by
  refine amw_parse_quoted_line s (.str (decodeEscapes s)) ?_ ?_
  · refine rtrim_eq_self_of_last _ dquote ?_ (by decide)
    rw [show dquote :: (s ++ [dquote]) = (dquote :: s) ++ [dquote] from by simp,
      List.getLast?_concat]
  · rw [parse_quoted_string]
    simp only [oneLineState]
    rw [show uw_char_at (dquote :: (s ++ [dquote])) 0 = dquote from rfl]
    rw [show (0 : Nat) + 1 = 1 from rfl]
    rw [show (dquote :: (s ++ [dquote]) : List Char) = dquote :: s ++ [dquote] from by simp]
    rw [fcq_valid s hv hl]
    simp only []
    rw [unescape_valid s 1 hv]
    simp [List.length_append]

/-- Claim C3, witness: the quoted body with an escaped backslash and an escaped quote decodes as expected. -/
theorem claim3_witness :
    (validBody ('a' :: bslash :: bslash :: 'b' :: bslash :: dquote :: 'c' :: []) = true ∧
     ('a' :: bslash :: bslash :: 'b' :: bslash :: dquote :: 'c' :: []).getLast?
       ≠ some bslash) ∧
    amw_parse [dquote ::
        (('a' :: bslash :: bslash :: 'b' :: bslash :: dquote :: 'c' :: []) ++ [dquote])] =
      .val (.str (decodeEscapes
        ('a' :: bslash :: bslash :: 'b' :: bslash :: dquote :: 'c' :: []))) :=
  ⟨⟨by decide, by decide⟩, claim3_theorem _ (by decide) (by decide)⟩

end AmwSpec
